import Mathlib

/-!
Verification development for the mystery-game backend
(`backend/app/services`): a shallow embedding of the follow-up text
protocol, the deterministic scoring engine, the retrying Gemini client
wrapper and the game orchestration service, together with theorems about
the behaviours documented in the specification.

Python text values are modelled as `List Char`; machine integers of the
scoring arithmetic are modelled as `Int`/`Nat`, and the float arithmetic
of the similarity rubric as `Rat`.
-/

namespace MysteryGame

/-- Python text is modelled as a list of characters. -/
abbrev Str := List Char

/-- Shorthand turning a Lean string literal into the `List Char` model. -/
def strL (s : String) : Str := s.data

/-- Characters treated as whitespace by Python's `str.strip()` / regex `\s`
(ASCII whitespace plus the common Unicode whitespace code points). -/
def isPySpace (c : Char) : Bool :=
  let n := c.toNat
  n = 0x20 || n = 0x09 || n = 0x0a || n = 0x0d || n = 0x0b || n = 0x0c ||
  (0x1c <= n && n <= 0x1f) || n = 0x85 || n = 0xa0 || n = 0x1680 ||
  (0x2000 <= n && n <= 0x200a) || n = 0x2028 || n = 0x2029 || n = 0x202f ||
  n = 0x205f || n = 0x3000

/-- Line boundaries recognised by Python's `str.splitlines()`. -/
def isLineBreak (c : Char) : Bool :=
  let n := c.toNat
  n = 0x0a || n = 0x0d || n = 0x0b || n = 0x0c || (0x1c <= n && n <= 0x1e) ||
  n = 0x85 || n = 0x2028 || n = 0x2029

/-- Leading-whitespace removal (`str.lstrip()`). -/
def trimLeft (l : Str) : Str := l.dropWhile isPySpace

/-- Trailing-whitespace removal (`str.rstrip()`). -/
def trimRight (l : Str) : Str := (l.reverse.dropWhile isPySpace).reverse

/-- Python `str.strip()`: drop whitespace from both ends. -/
def pyStrip (l : Str) : Str := trimRight (trimLeft l)

/-- Python `str.strip(chars)`: drop any of the given characters from both
ends. -/
def stripChars (cs : List Char) (l : Str) : Str :=
  (((l.dropWhile (· ∈ cs)).reverse.dropWhile (· ∈ cs)).reverse)

/-- Index of the first occurrence of `pat` as a contiguous substring of `s`
(the semantics of a leftmost regex literal match), or `none`. -/
def findSub (pat : Str) : Str → Option Nat
  | [] => if pat.isPrefixOf ([] : Str) then some 0 else none
  | c :: t => if pat.isPrefixOf (c :: t) then some 0 else (findSub pat t).map (· + 1)

/-- `pat` occurs as a substring of `s` starting at index `i`. -/
def occursAt (pat s : Str) (i : Nat) : Prop := pat.isPrefixOf (s.drop i) = true

/-- Python's substring containment `pat in hay`. -/
def containsSub (hay pat : Str) : Bool := (findSub pat hay).isSome

/-- After a `\r`, Python's `splitlines` also consumes an immediately
following `\n` (a `\r\n` pair is one boundary). -/
def afterCr : Str → Str
  | '\n' :: t2 => t2
  | t3 => t3

/-- `afterCr` never lengthens its input. -/
theorem afterCr_le_length (t : Str) : (afterCr t).length ≤ t.length := by
  cases t with
  | nil => simp [afterCr]
  | cons c t2 =>
    by_cases hc : c = '\n'
    · subst hc
      simp [afterCr]
    · have : afterCr (c :: t2) = c :: t2 := by
        cases t2 <;> simp [afterCr, hc]
      rw [this]

/-- Worker for `splitLinesPy`: accumulates the current line (reversed). -/
def slGo : Str → Str → List Str
  | [], acc => if acc.isEmpty then [] else [acc.reverse]
  | c :: t, acc =>
      if isLineBreak c then
        if c = '\r' then acc.reverse :: slGo (afterCr t) []
        else acc.reverse :: slGo t []
      else slGo t (c :: acc)
termination_by l _ => l.length
decreasing_by
  all_goals simp_arith
  all_goals exact afterCr_le_length _

/-- Python `str.splitlines()`: split at line boundaries (`\r\n` counting as
one boundary); a trailing boundary does not produce a final empty line. -/
def splitLinesPy (l : Str) : List Str := slGo l []

/-- `"\n".join(parts)`. -/
def joinNL : List Str → Str
  | [] => []
  | [x] => x
  | x :: y :: t => x ++ '\n' :: joinNL (y :: t)

/-! ## Language modes and game status (`app/enums.py`) -/

/-- `LanguageMode`. -/
inductive LangMode | ja | en
deriving DecidableEq, Repr

/-- `GameStatus`. -/
inductive GStatus | INIT | PLAYING | GUESSING | RESULT | ENDED
deriving DecidableEq, Repr

/-- String value of a `GameStatus` member. -/
def GStatus.value : GStatus → String
  | .INIT => "INIT"
  | .PLAYING => "PLAYING"
  | .GUESSING => "GUESSING"
  | .RESULT => "RESULT"
  | .ENDED => "ENDED"

/-! ## Case data model (`app/schemas.py`) -/

/-- `Character`. -/
structure CharacterM where
  id : Str
  name : Str
  role : Str
  traits : List Str
  alibi : Str
  secrets : List Str
  isLiar : Bool
  isKiller : Bool
deriving DecidableEq, Repr

/-- `Victim`. -/
structure VictimM where
  id : Str
  name : Str
  occupation : Str
  causeOfDeath : Str
  foundState : Str
deriving DecidableEq, Repr

/-- `TimelineEvent`. -/
structure TimelineEventM where
  time : Str
  event : Str
deriving DecidableEq, Repr

/-- `EvidenceItem`. -/
structure EvidenceItemM where
  id : Str
  name : Str
  detail : Str
  relevance : Str
deriving DecidableEq, Repr

/-- `TruthBlock`. -/
structure TruthBlockM where
  solution : Str
  whyRoomWasLocked : Str
  howAlibiWasFaked : Str
deriving DecidableEq, Repr

/-- `GmRules`. -/
structure GmRulesM where
  disclosurePolicy : Str
  liarPolicy : Str
  safety : Str
deriving DecidableEq, Repr

/-- `SettingInfo`. -/
structure SettingInfoM where
  location : Str
  timeWindow : Str
  summary : Str
deriving DecidableEq, Repr

/-- `CaseFile`. -/
structure CaseFileM where
  caseId : Str
  title : Str
  setting : SettingInfoM
  characters : List CharacterM
  victim : VictimM
  killerId : Str
  liarId : Str
  motive : Str
  method : Str
  trick : Str
  timeline : List TimelineEventM
  evidence : List EvidenceItemM
  truth : TruthBlockM
  gmRules : GmRulesM
deriving DecidableEq, Repr

/-- `GuessRequest`. -/
structure GuessReq where
  killer : Str
  motive : Str
  method : Str
  trick : Str
  reasoning : Str
deriving DecidableEq, Repr

/-- Placeholder character used to model Python's direct list indexing; the
source only indexes lists that a validated `CaseFile` guarantees nonempty. -/
def dfltChar : CharacterM :=
  { id := [], name := [], role := [], traits := [], alibi := [], secrets := []
    isLiar := false, isKiller := false }

/-- Placeholder timeline event (see `dfltChar`). -/
def dfltEvent : TimelineEventM := { time := [], event := [] }

/-- Placeholder evidence item (see `dfltChar`). -/
def dfltEvidence : EvidenceItemM :=
  { id := [], name := [], detail := [], relevance := [] }

/-! ## Follow-up question protocol (`app/services/follow_up.py`) -/

/-- `FOLLOW_UP_OPEN_TAG`. -/
def followUpOpenTag : Str := strL "<FOLLOW_UP_QUESTIONS>"

/-- `FOLLOW_UP_CLOSE_TAG`. -/
def followUpCloseTag : Str := strL "</FOLLOW_UP_QUESTIONS>"

/-- `default_follow_up_questions`. -/
def defaultFollowUpQuestions (mode : LangMode) : List Str :=
  match mode with
  | .en =>
      [strL "Who saw the victim last?",
       strL "Where were you when it happened?",
       strL "Who had conflict with the victim?"]
  | .ja =>
      [strL "最後に被害者を見たのは誰？",
       strL "事件当時、あなたはどこにいた？",
       strL "被害者と揉めていた人物はいる？"]

/-- `heuristic_follow_up_questions`.  List indexing `xs[min(h, len-1)]` is
modelled with `getD`; for the validated cases the source receives, the
index is always in bounds and the default is never used. -/
def heuristicFollowUpQuestions (caseData : CaseFileM) (mode : LangMode)
    (historyCount : Nat) : List Str :=
  let evidence := caseData.evidence.getD
      (min historyCount (caseData.evidence.length - 1)) dfltEvidence
  let timelineEvent := caseData.timeline.getD
      (min historyCount (caseData.timeline.length - 1)) dfltEvent
  let victimName := caseData.victim.name
  let rotation := historyCount % 4
  let candidates :=
    match mode with
    | .en =>
        [strL "Who was near " ++ victimName ++ strL " around " ++
           timelineEvent.time ++ strL "?",
         strL "Who had the strongest conflict or benefit tied to " ++
           victimName ++ strL "?",
         strL "How does the evidence '" ++ evidence.name ++
           strL "' narrow the murder method?",
         strL "What concrete steps could create the locked-room trick here?"]
    | .ja =>
        [timelineEvent.time ++ strL "前後に" ++ victimName ++
           strL "の近くにいた人物は誰？",
         victimName ++ strL "と利害対立が最も強かった人物は誰？",
         strL "証拠「" ++ evidence.name ++ strL "」はどの手口を裏づける？",
         strL "この現場で密室トリックを成立させる具体的な手順は？"]
  (List.range 3).map (fun offset => candidates.getD ((rotation + offset) % 4) [])

/-- Separator characters accepted by the `Qn:`-numbering regex. -/
def qNumSeps : List Char := [':', '.', ')', '-']

/-- Parse `\s*\d+\s*[:.)\-]\s*` at the head of `m`; `none` when the pattern
does not match there. -/
def parseNumSep (m : Str) : Option Str :=
  let m1 := m.dropWhile isPySpace
  let ds := m1.takeWhile Char.isDigit
  if ds.isEmpty then none
  else
    match (m1.dropWhile Char.isDigit).dropWhile isPySpace with
    | [] => none
    | c :: t => if c ∈ qNumSeps then some (t.dropWhile isPySpace) else none

/-- `re.sub(r"^(?:Q?\s*\d+\s*[:.)\-]\s*)", "", line, flags=re.IGNORECASE)`:
strip one leading question-number marker, if present. -/
def stripQNum (l : Str) : Str :=
  match l with
  | [] => []
  | c :: t =>
      if c = 'Q' || c = 'q' then (parseNumSep t).getD l
      else (parseNumSep l).getD l

/-- Characters removed from both ends after the numbering marker
(`line.strip(" ・-")`). -/
def bulletChars : List Char := [' ', '・', '-']

/-- Worker for `_normalize_follow_up_questions`: clean each question, drop
empties, de-duplicate, stop once three are collected. -/
def nqGo : List Str → List Str → List Str
  | [], acc => acc
  | q :: t, acc =>
      if acc.length ≥ 3 then acc
      else
        let line := pyStrip q
        if line.isEmpty then nqGo t acc
        else
          let line := stripChars bulletChars (stripQNum line)
          if line.isEmpty then nqGo t acc
          else if line ∈ acc then nqGo t acc
          else nqGo t (acc ++ [line])

/-- Worker padding the cleaned list with default questions. -/
def nqPad : List Str → List Str → List Str
  | [], acc => acc
  | q :: t, acc =>
      if acc.length ≥ 3 then acc
      else if q ∈ acc then nqPad t acc
      else nqPad t (acc ++ [q])

/-- `_normalize_follow_up_questions`. -/
def normalizeFollowUpQuestions (questions : List Str) (mode : LangMode)
    (withDefault : Bool) : List Str :=
  let cleaned := nqGo questions []
  if withDefault then
    (nqPad (defaultFollowUpQuestions mode) cleaned).take 3
  else
    cleaned.take 3

/-- `append_follow_up_block`. -/
def appendFollowUpBlock (answerText : Str) (questions : List Str)
    (mode : LangMode) : Str :=
  let normalized := normalizeFollowUpQuestions questions mode false
  let body := pyStrip answerText
  let followUpLines := normalized.enum.map
      (fun p => strL "Q" ++ (Nat.toDigits 10 (p.1 + 1)) ++ strL ": " ++ p.2)
  let body := if body.isEmpty then strL "..." else body
  joinNL ([body, []] ++ [followUpOpenTag] ++ followUpLines ++ [followUpCloseTag])

/-- Leftmost match of the block regex
`OPEN\s*(.*?)\s*CLOSE` (DOTALL): the first open tag that has a close tag
somewhere after it, paired with that first close-tag position.  (A lazy
group with greedy `\s*` on both sides captures the inner text with its
surrounding whitespace trimmed, which `splitFollowUp` applies below.) -/
def searchBlock (s : Str) : Option (Nat × Nat) :=
  match findSub followUpOpenTag s with
  | none => none
  | some p =>
      match findSub followUpCloseTag (s.drop (p + followUpOpenTag.length)) with
      | none => none
      | some d => some (p, p + followUpOpenTag.length + d)

/-- `split_answer_and_follow_up_questions`. -/
def splitFollowUp (rawAnswerText : Str) (mode : LangMode)
    (withDefault : Bool) : Str × List Str :=
  match searchBlock rawAnswerText with
  | none =>
      (pyStrip rawAnswerText, normalizeFollowUpQuestions [] mode withDefault)
  | some (p, c) =>
      let inner := (rawAnswerText.drop (p + followUpOpenTag.length)).take
          (c - (p + followUpOpenTag.length))
      let block := pyStrip inner
      let questions := ((splitLinesPy block).map pyStrip).filter
          (fun line => !line.isEmpty)
      let answerText := pyStrip (rawAnswerText.take p ++
          rawAnswerText.drop (c + followUpCloseTag.length))
      (answerText, normalizeFollowUpQuestions questions mode withDefault)

/-! ## Deterministic scoring (`app/services/scoring_service.py`) -/

/-- `_normalize`: lowercase and delete all whitespace (ASCII lowering models
`str.lower()` for the texts the service handles). -/
def normalizeT (l : Str) : Str :=
  (l.map Char.toLower).filter (fun c => !isPySpace c)

/-- Characters kept by `_tokenize`'s splitting class
`[^\w぀-ヿ㐀-鿿]+`: word characters (modelled as ASCII
alphanumerics plus underscore) and the two CJK ranges of the pattern. -/
def isWordChar (c : Char) : Bool :=
  c.isAlphanum || c = '_' ||
  (0x3040 ≤ c.toNat && c.toNat ≤ 0x30ff) ||
  (0x3400 ≤ c.toNat && c.toNat ≤ 0x9fff)

/-- Worker for `tokensOf`: collect maximal runs of word characters. -/
def tokGo : Str → Str → List Str
  | [], acc => if acc.isEmpty then [] else [acc.reverse]
  | c :: t, acc =>
      if isWordChar c then tokGo t (c :: acc)
      else if acc.isEmpty then tokGo t [] else acc.reverse :: tokGo t []

/-- `_tokenize` as the underlying token list (before set formation). -/
def tokensOf (l : Str) : List Str := tokGo (l.map Char.toLower) []

/-- `_tokenize`: the set of nonempty tokens. -/
def tokFin (l : Str) : Finset Str := (tokensOf l).toFinset

/-- Length of a longest common subsequence of two character lists. -/
def lcsLen : Str → Str → Nat
  | [], _ => 0
  | _ :: _, [] => 0
  | a :: as, b :: bs =>
      if a = b then lcsLen as bs + 1
      else max (lcsLen (a :: as) bs) (lcsLen as (b :: bs))
termination_by a b => a.length + b.length

/-- Modelled from the spec: `difflib.SequenceMatcher(None, a, b).ratio()`
(standard-library code, not under `src/`), the spec's "character-level
sequence-similarity ratio between normalized guess text and normalized
truth text".  Modelled as the normalised longest-common-subsequence
similarity `2*lcs/(len(a)+len(b))`, which like the library function is `1`
on equal inputs, `0` on disjoint ones, and never negative. -/
def smRatio (a b : Str) : ℚ :=
  if a.length + b.length = 0 then 1
  else (2 * (lcsLen a b : ℚ)) / ((a.length : ℚ) + (b.length : ℚ))

/-- Python `round()` on an exact rational: round half to even. -/
def pyRound (q : ℚ) : Int :=
  let f := Int.floor q
  if q - f = 1 / 2 then (if f % 2 = 0 then f else f + 1)
  else Int.floor (q + 1 / 2)

/-- `int(max_points * 0.6)`: the match threshold (exact rational model of
the float product, truncated toward zero as `int()` does on the
non-negative values used here). -/
def matchThreshold (maxPoints : Int) : Int := Int.floor ((3 : ℚ) * maxPoints / 5)

/-- `_semantic_score`: blended similarity points for one free-text field,
with the flag telling whether the field counts as matched. -/
def semanticScore (answer truth : Str) (maxPoints : Int) : Int × Bool :=
  let a := normalizeT answer
  let t := normalizeT truth
  if a.isEmpty || t.isEmpty then (0, false)
  else
    let ratio := smRatio a t
    let ta := tokFin answer
    let tt := tokFin truth
    let overlap : ℚ := ((ta ∩ tt).card : ℚ) / (max 1 tt.card : ℚ)
    let blended := max ratio overlap
    let points := pyRound ((maxPoints : ℚ) * blended)
    (min maxPoints points, points ≥ matchThreshold maxPoints)

/-- `_grade`. -/
def gradeOf (score : Int) : Str :=
  if score ≥ 90 then strL "S"
  else if score ≥ 75 then strL "A"
  else if score ≥ 60 then strL "B"
  else strL "C"

/-- Python values as they appear in the scoring payloads. -/
inductive PyVal where
  | pyNone : PyVal
  | pyBool : Bool → PyVal
  | pyInt : Int → PyVal
  | pyStr : Str → PyVal
  | pyList : List PyVal → PyVal
  | pyDict : List (String × PyVal) → PyVal

/-- A Python dict payload: an association list with distinct keys. -/
abbrev PyDict := List (String × PyVal)

/-- The field names `_llm_payload_looks_valid` requires. -/
def requiredScoringKeys : List String :=
  ["score", "grade", "matches", "feedback", "contradictions",
   "weaknesses_top3", "solution_summary"]

/-- `_llm_payload_looks_valid`: all required keys present and the `matches`
value is itself a dict. -/
def llmPayloadLooksValid (payload : PyDict) : Bool :=
  requiredScoringKeys.all (fun k => (payload.lookup k).isSome) &&
  (match payload.lookup "matches" with
   | some (.pyDict _) => true
   | _ => false)

/-- Decimal rendering of an integer. -/
def intL (n : Int) : Str := (toString n).data

/-- The rule-based contradiction notes of `ScoringService.evaluate`. -/
def contradictionNotes (mode : LangMode) (reasoning : Str) : List Str :=
  let first :=
    if containsSub reasoning (strL "10:12") then
      [if mode = .ja then
         strL "10:12の目撃証言を事実として採用しており、証拠時系列と衝突しています。"
       else
         strL "You relied on the 10:12 witness claim, which conflicts with evidence timeline."]
    else []
  let second :=
    if !containsSub reasoning (strL "停電") &&
       !containsSub (reasoning.map Char.toLower) (strL "blackout") then
      [if mode = .ja then strL "停電タイミングの検証が不足しています。"
       else strL "Your reasoning does not verify the blackout timing."]
    else []
  first ++ second

/-- `ScoringService._weaknesses`. -/
def weaknessesOf (mode : LangMode) (killerMatch motiveMatch methodMatch trickMatch : Bool) :
    List Str :=
  match mode with
  | .en =>
      [if killerMatch then
         strL "You did not connect each claim to a concrete evidence item."
       else strL "Suspect elimination logic was weak, leading to wrong killer selection.",
       if motiveMatch then
         strL "Timeline interpretation around the blackout needs tighter validation."
       else strL "Motive analysis missed the financial-pressure thread.",
       if methodMatch && trickMatch then
         strL "The liar NPC testimony was not sufficiently cross-checked."
       else strL "Mechanism of delayed latch reset and gas setup was underexplained."]
  | .ja =>
      [if killerMatch then strL "主張ごとに対応する証拠を明示できていません。"
       else strL "容疑者の消去法が弱く、犯人特定を誤っています。",
       if motiveMatch then strL "停電前後の時系列解釈が甘く、検証が不足しています。"
       else strL "金銭圧力の動機線を十分に拾えていません。",
       if methodMatch && trickMatch then strL "嘘つきNPCの証言を裏取りせずに採用しています。"
       else strL "遅延噴射とラッチ復帰の仕組み説明が不足しています。"]

/-- The `next(c for c in characters if c.id == killer_id)` lookup of
`evaluate`, modelled with `find?`/`getD`; a validated case always contains
the killer. -/
def killerOf (caseData : CaseFileM) : CharacterM :=
  (caseData.characters.find? (fun c => c.id = caseData.killerId)).getD dfltChar

/-- The killer all-or-nothing comparison of `evaluate`: the normalized
guess equals the normalized killer name or killer id. -/
def killerMatchOf (caseData : CaseFileM) (guess : GuessReq) : Bool :=
  normalizeT guess.killer == normalizeT (killerOf caseData).name ||
  normalizeT guess.killer == normalizeT (killerOf caseData).id

/-- The deterministic total score of `evaluate`:
`(40 if killer_match else 0) + motive + method + trick` points. -/
def detScore (caseData : CaseFileM) (guess : GuessReq) : Int :=
  (if killerMatchOf caseData guess then (40 : Int) else 0) +
  (semanticScore guess.motive caseData.motive 20).1 +
  (semanticScore guess.method caseData.method 20).1 +
  (semanticScore guess.trick caseData.trick 20).1

/-- The deterministic branch of `ScoringService.evaluate` (everything after
the remote-payload passthrough). -/
def detEvaluate (caseData : CaseFileM) (guess : GuessReq) (mode : LangMode) : PyDict :=
  let killerMatch := killerMatchOf caseData guess
  let motiveR := semanticScore guess.motive caseData.motive 20
  let methodR := semanticScore guess.method caseData.method 20
  let trickR := semanticScore guess.trick caseData.trick 20
  let score := detScore caseData guess
  let grade := gradeOf score
  let feedback :=
    if mode = .en then
      strL "Killer " ++ (if killerMatch then strL "correct" else strL "incorrect") ++
      strL ". Motive/method/trick alignment: " ++ intL motiveR.1 ++ strL "/20, " ++
      intL methodR.1 ++ strL "/20, " ++ intL trickR.1 ++ strL "/20."
    else
      strL "犯人推定は" ++ (if killerMatch then strL "正解" else strL "不正解") ++
      strL "。動機/手口/トリックの一致度は " ++ intL motiveR.1 ++ strL "/20, " ++
      intL methodR.1 ++ strL "/20, " ++ intL trickR.1 ++ strL "/20 です。"
  let solutionSummary :=
    if mode = .en then
      caseData.truth.solution ++ strL " The room appeared locked because " ++
      caseData.truth.whyRoomWasLocked ++ strL " The alibi deception worked because " ++
      caseData.truth.howAlibiWasFaked
    else
      caseData.truth.solution ++ strL " 密室化は " ++
      caseData.truth.whyRoomWasLocked ++ strL "。アリバイ偽装は " ++
      caseData.truth.howAlibiWasFaked
  [("score", PyVal.pyInt score),
   ("grade", PyVal.pyStr grade),
   ("matches", PyVal.pyDict
      [("killer", PyVal.pyBool killerMatch),
       ("motive", PyVal.pyBool motiveR.2),
       ("method", PyVal.pyBool methodR.2),
       ("trick", PyVal.pyBool trickR.2)]),
   ("feedback", PyVal.pyStr feedback),
   ("contradictions", PyVal.pyList ((contradictionNotes mode guess.reasoning).map PyVal.pyStr)),
   ("weaknesses_top3", PyVal.pyList
      ((weaknessesOf mode killerMatch motiveR.2 methodR.2 trickR.2).map PyVal.pyStr)),
   ("solution_summary", PyVal.pyStr solutionSummary)]

/-- `ScoringService.evaluate`: return a truthy, valid-looking remote payload
verbatim, otherwise fall through to deterministic scoring. -/
def scoringEvaluate (caseData : CaseFileM) (guess : GuessReq) (mode : LangMode)
    (llmResult : Option PyDict) : PyDict :=
  match llmResult with
  | some payload =>
      if !payload.isEmpty && llmPayloadLooksValid payload then payload
      else detEvaluate caseData guess mode
  | none => detEvaluate caseData guess mode

/-! ## Retrying Gemini client (`app/services/llm_client.py`) -/

/-- `RETRIABLE_GEMINI_STATUS_CODES`. -/
def retriableGeminiStatusCodes : List Int := [408, 429, 500, 502, 503, 504]

/-- The three classes of failure one `_request` attempt can raise:
`genai_errors.APIError` (with its optional integer `code` and its `status`
and message strings), an `LLMError` raised by response handling, and any
other exception (with its type name and message). -/
inductive UpstreamErr where
  | api : Option Int → String → String → UpstreamErr
  | handler : String → UpstreamErr
  | unexpected : String → String → UpstreamErr
deriving DecidableEq, Repr

/-- `_format_api_error`. -/
def formatApiError (code : Option Int) (status msg : String) : String :=
  match code with
  | none => "Gemini API error (" ++ status ++ "): " ++ msg
  | some c => "Gemini API error " ++ toString c ++ " (" ++ status ++ "): " ++ msg

/-- The message appended to the error accumulator for one failed attempt. -/
def formatAttemptError : UpstreamErr → String
  | .api code status msg => formatApiError code status msg
  | .handler msg => msg
  | .unexpected tn msg => tn ++ ": " ++ msg

/-- `_should_retry`, as applied per failure class in `_request_with_retry`:
an `APIError` is retried only when its `code` is an `int` in the fixed
status-code set; `LLMError` and unexpected exceptions are always retried
while attempts remain. -/
def continuesRetry : UpstreamErr → Bool
  | .api code _ _ =>
      match code with
      | some c => c ∈ retriableGeminiStatusCodes
      | none => false
  | .handler _ => true
  | .unexpected _ _ => true

/-- The final `LLMError` message: all accumulated attempt errors joined. -/
def joinedErrors (errs : List String) : String := String.intercalate "; " errs

/-- Loop body of `_request_with_retry`.  `outcomes k` is the result of the
`k`-th `_request` call (the environment of remote responses); `fuel` is the
number of attempts still allowed after the current one. -/
def retryGo (outcomes : Nat → Except UpstreamErr String) :
    Nat → Nat → List String → Except String String
  | attempt, 0, errs =>
      match outcomes attempt with
      | .ok s => .ok s
      | .error e => .error (joinedErrors (errs ++ [formatAttemptError e]))
  | attempt, fuel + 1, errs =>
      match outcomes attempt with
      | .ok s => .ok s
      | .error e =>
          if continuesRetry e then
            retryGo outcomes (attempt + 1) fuel (errs ++ [formatAttemptError e])
          else .error (joinedErrors (errs ++ [formatAttemptError e]))

/-- `_request_with_retry` with `max(1, gemini_max_attempts)` attempts. -/
def requestWithRetry (outcomes : Nat → Except UpstreamErr String)
    (maxAttempts : Nat) : Except String String :=
  retryGo outcomes 0 (max 1 maxAttempts - 1) []

/-! ## Error taxonomy (`app/errors.py`) -/

/-- `AppError` (the JSON `detail` dict is modelled as string pairs). -/
structure AppErrorM where
  statusCode : Nat
  errorCode : String
  message : String
  retryable : Bool
  detail : List (String × String)
deriving DecidableEq, Repr

/-- `conflict`. -/
def conflictE (message : String) (detail : List (String × String)) : AppErrorM :=
  { statusCode := 409, errorCode := "INVALID_STATE", message := message
    retryable := false, detail := detail }

/-- `not_found`. -/
def notFoundE (message : String) (detail : List (String × String)) : AppErrorM :=
  { statusCode := 404, errorCode := "NOT_FOUND", message := message
    retryable := false, detail := detail }

/-- `gemini_error`. -/
def geminiErrorE (message : String) (detail : List (String × String)) : AppErrorM :=
  { statusCode := 502, errorCode := "GEMINI_UNAVAILABLE", message := message
    retryable := true, detail := detail }

/-! ## Game orchestration (`app/services/game_service.py`) -/

/-- One stored `Message` row: the question and the raw answer text (which
embeds the follow-up block), with the language mode it was produced in. -/
structure MessageM where
  question : Str
  answerText : Str
  languageMode : LangMode
deriving DecidableEq, Repr

/-- The stored `Guess` row as far as the model needs it: the submitted
fields and the scored payload recorded by `submit_guess`. -/
structure GuessRowM where
  killer : Str
  motive : Str
  method : Str
  trick : Str
  reasoning : Str
  scored : PyDict

/-- The mutable `Game` aggregate. -/
structure GameM where
  status : GStatus
  remainingQuestions : Nat
  languageMode : LangMode
  unlockedEvidenceCount : Nat
  messages : List MessageM
  guessRow : Option GuessRowM

/-- The result of the contradiction check as `ask` inspects it: an
`LLMError` (caught and soft-failed), a successful call returning a
non-dict value, or a dict — modelled by the truthiness of its
`contradiction` entry and, when truthy, the string form of its
`fixed_answer` entry (`none` when that entry is missing or falsy). -/
inductive ContraRes where
  | fail : String → ContraRes
  | nonDict : ContraRes
  | payload : Bool → Option Str → ContraRes

/-- The remote-call environment one `ask`/`submit_guess` runs against:
the outcome of `answer_question` and of `contradiction_check`, and the
outcome of `score_guess` (which either raises `LLMError` or returns an
optional payload). -/
structure AskEnv where
  answer : Except String Str
  contra : ContraRes
  scoreGuess : Except String (Option PyDict)

/-- `Settings.max_questions` default. -/
def defaultMaxQuestions : Nat := 12

/-- The freshly created game of `create_game` (persistence elided). -/
def newGameM (mode : LangMode) (maxQuestions : Nat) : GameM :=
  { status := .PLAYING, remainingQuestions := maxQuestions
    languageMode := mode, unlockedEvidenceCount := 0
    messages := [], guessRow := none }

/-- `_history_of_game`: prior exchanges with the protocol block stripped
(messages are already stored in creation order). -/
def historyOfGame (game : GameM) : List (Str × Str) :=
  game.messages.map (fun m =>
    ((m.question), (splitFollowUp m.answerText m.languageMode false).1))

/-- `_answer_has_named_actor`. -/
def answerHasNamedActor (answer : Str) (caseData : CaseFileM) : Bool :=
  caseData.characters.any (fun ch => containsSub answer ch.name)

/-- `_build_explicit_actor_answer`: the deterministic fallback answer,
a pure function of the case, the question and the language mode.  (The
direct indexing `characters[0..2]`, `timeline[0]`, `evidence[0]` is
modelled with `getD`; validated cases make it in-bounds.) -/
def buildExplicitActorAnswer (caseData : CaseFileM) (question : Str)
    (mode : LangMode) : Str :=
  let first := caseData.characters.getD 0 dfltChar
  let second := caseData.characters.getD 1 dfltChar
  let third := caseData.characters.getD 2 dfltChar
  let firstEvent := caseData.timeline.getD 0 dfltEvent
  let firstEvidence := caseData.evidence.getD 0 dfltEvidence
  let q := question.map Char.toLower
  match mode with
  | .en =>
      if [strL "where", strL "alibi", strL "at the time", strL "when"].any
          (fun k => containsSub q k) then
        first.name ++ strL " says: " ++ first.alibi ++ strL " " ++
        second.name ++ strL " says: " ++ second.alibi
      else if [strL "evidence", strL "clue", strL "proof"].any
          (fun k => containsSub q k) then
        strL "For evidence '" ++ firstEvidence.name ++ strL "', compare " ++
        first.name ++ strL "'s account ('" ++ first.alibi ++ strL "') with " ++
        second.name ++ strL "'s account ('" ++ second.alibi ++ strL "')."
      else
        strL "At " ++ firstEvent.time ++ strL ", " ++ firstEvent.event ++
        strL " " ++ first.name ++ strL " says: " ++ first.alibi ++ strL " " ++
        third.name ++ strL " says: " ++ third.alibi
  | .ja =>
      if [strL "どこ", strL "アリバイ", strL "当時", strL "いつ"].any
          (fun k => containsSub question k) then
        first.name ++ strL "は「" ++ first.alibi ++ strL "」と証言しています。" ++
        second.name ++ strL "は「" ++ second.alibi ++ strL "」と証言しています。"
      else if [strL "証拠", strL "手掛かり", strL "手がかり"].any
          (fun k => containsSub question k) then
        strL "証拠「" ++ firstEvidence.name ++ strL "」の確認では、" ++
        first.name ++ strL "の行動「" ++ first.alibi ++ strL "」と" ++
        second.name ++ strL "の行動「" ++ second.alibi ++ strL "」を照合してください。"
      else
        firstEvent.time ++ strL "の時点では" ++ firstEvent.event ++ strL "。" ++
        first.name ++ strL "は「" ++ first.alibi ++ strL "」、" ++
        third.name ++ strL "は「" ++ third.alibi ++ strL "」と証言しています。"

/-- The named-actor guard applied to the answer right before it is
returned: keep the answer if it names a character, otherwise substitute
the deterministic explicit-actor answer. -/
def finalizeAnswer (caseData : CaseFileM) (question : Str) (mode : LangMode)
    (answer : Str) : Str :=
  if answerHasNamedActor answer caseData then answer
  else buildExplicitActorAnswer caseData question mode

/-- `_unlock_next_evidence`: the unlocked item (if any) and the updated
unlock count. -/
def unlockNextEvidence (unlockedCount : Nat) (caseData : CaseFileM) :
    Option EvidenceItemM × Nat :=
  if unlockedCount ≥ caseData.evidence.length then (none, unlockedCount)
  else (some (caseData.evidence.getD unlockedCount dfltEvidence), unlockedCount + 1)

/-- The answer and follow-up questions `ask` computes from the raw
generated answer before the contradiction check: split off the protocol
block, and fall back to the heuristic questions when none were embedded. -/
def askPre (caseData : CaseFileM) (mode : LangMode) (historyCount : Nat)
    (raw : Str) : Str × List Str :=
  let s := splitFollowUp raw mode false
  (s.1,
   if s.2.isEmpty then heuristicFollowUpQuestions caseData mode historyCount
   else s.2)

/-- The contradiction-rewrite step of `ask` (source lines 129–158): applied
to the `(answer, followUps)` pair computed by `askPre`. -/
def applyContradiction (env : AskEnv) (caseData : CaseFileM) (mode : LangMode)
    (historyCount : Nat) (pre : Str × List Str) : Str × List Str :=
  match env.contra with
  | .fail _ => pre
  | .nonDict => pre
  | .payload flag fixedAnswer =>
      match flag, fixedAnswer with
      | true, some fx =>
          let rw := splitFollowUp fx mode false
          (rw.1,
           if !rw.2.isEmpty then rw.2
           else if pre.2.isEmpty then
             heuristicFollowUpQuestions caseData mode historyCount
           else pre.2)
      | _, _ => pre

/-- What `ask` returns to the route layer. -/
structure AskOut where
  answerText : Str
  followUpQuestions : List Str
  remainingQuestions : Nat
  status : GStatus
  unlockedEvidence : Option EvidenceItemM

/-- The successful path of `GameService.ask` (after the status guard, for a
successfully generated raw answer): follow-up split, contradiction
soft-check, named-actor guard, counter decrement (floored at 0, forcing
`GUESSING` at 0), evidence unlock and message append. -/
def askSuccess (env : AskEnv) (caseData : CaseFileM) (game : GameM)
    (question : Str) (raw : Str) : GameM × AskOut :=
  let mode := game.languageMode
  let historyCount := (historyOfGame game).length
  let pre := askPre caseData mode historyCount raw
  let rewritten := applyContradiction env caseData mode historyCount pre
  let answer := finalizeAnswer caseData question mode rewritten.1
  let followUps := rewritten.2
  let remaining := game.remainingQuestions - 1
  let status : GStatus := if remaining = 0 then .GUESSING else game.status
  let unlock := unlockNextEvidence game.unlockedEvidenceCount caseData
  let game' : GameM :=
    { game with
      status := status
      remainingQuestions := remaining
      unlockedEvidenceCount := unlock.2
      messages := game.messages ++
        [{ question := question
           answerText := appendFollowUpBlock answer followUps mode
           languageMode := mode }] }
  (game',
   { answerText := answer
     followUpQuestions := followUps
     remainingQuestions := remaining
     status := status
     unlockedEvidence := unlock.1 })

/-- `GameService.ask`: status guard and upstream-failure translation around
`askSuccess`. -/
def askM (env : AskEnv) (caseData : CaseFileM) (game : GameM) (question : Str) :
    Except AppErrorM (GameM × AskOut) :=
  if game.status ≠ .PLAYING then
    .error (conflictE "質問できるのはPLAYING状態のみです。"
      [("status", game.status.value)])
  else
    match env.answer with
    | .error cause =>
        .error (geminiErrorE "通信に失敗しました。再試行してください。" [("cause", cause)])
    | .ok raw => .ok (askSuccess env caseData game question raw)

/-- `GameService.submit_guess`: status guard, soft-failing remote scoring,
deterministic fallback via `scoringEvaluate`, guess upsert and transition
to `RESULT`.  (The route-layer payload is the scored dict; the `int()`
re-coercion of its `score` entry is elided.) -/
def submitGuessM (env : AskEnv) (caseData : CaseFileM) (game : GameM)
    (request : GuessReq) : Except AppErrorM (GameM × PyDict) :=
  if game.status ≠ .GUESSING then
    .error (conflictE "推理提出はGUESSING状態のみ可能です。"
      [("status", game.status.value)])
  else
    let llmResult := match env.scoreGuess with
      | .error _ => none
      | .ok v => v
    let scored := scoringEvaluate caseData request game.languageMode llmResult
    let game' : GameM :=
      { game with
        status := .RESULT
        guessRow := some
          { killer := request.killer, motive := request.motive
            method := request.method, trick := request.trick
            reasoning := request.reasoning, scored := scored } }
    .ok (game', scored)

/-- `n` successive `ask` calls against a fixed environment and question. -/
def askIter (env : AskEnv) (caseData : CaseFileM) (question : Str) :
    Nat → GameM → Except AppErrorM GameM
  | 0, game => .ok game
  | n + 1, game =>
      (askM env caseData game question).bind
        (fun r => askIter env caseData question n r.1)

/-- Remaining-questions/status projection of an orchestration result. -/
def runState (r : Except AppErrorM GameM) : Option (Nat × GStatus) :=
  r.toOption.map (fun g => (g.remainingQuestions, g.status))

/-- The same environment with the contradiction check replaced by the
canonical "no contradiction" payload. -/
def envNoContra (env : AskEnv) : AskEnv :=
  { env with contra := .payload false none }

/-! ## Concrete data for witnesses and counterexamples -/

/-- A sample character. -/
def charA1 : CharacterM :=
  { id := strL "c1", name := strL "Alice", role := strL "guest"
    traits := [strL "calm"], alibi := strL "in the lobby", secrets := []
    isLiar := false, isKiller := false }

/-- A sample character (the killer). -/
def charA2 : CharacterM :=
  { id := strL "c2", name := strL "Bob", role := strL "clerk"
    traits := [strL "nervous"], alibi := strL "at the desk", secrets := []
    isLiar := false, isKiller := true }

/-- A sample character (the liar). -/
def charA3 : CharacterM :=
  { id := strL "c3", name := strL "Carol", role := strL "chef"
    traits := [], alibi := strL "in the kitchen", secrets := []
    isLiar := true, isKiller := false }

/-- A sample character. -/
def charA4 : CharacterM :=
  { id := strL "c4", name := strL "Dave", role := strL "guard"
    traits := [], alibi := strL "at the gate", secrets := []
    isLiar := false, isKiller := false }

/-- A sample validated case file (4 characters, killer distinct from liar,
5 evidence items, a nonempty timeline). -/
def caseA : CaseFileM :=
  { caseId := strL "case-1", title := strL "The Stream Room"
    setting := { location := strL "studio", timeWindow := strL "night"
                 summary := strL "a locked room" }
    characters := [charA1, charA2, charA3, charA4]
    victim := { id := strL "v1", name := strL "Vic", occupation := strL "host"
                causeOfDeath := strL "gas", foundState := strL "locked in" }
    killerId := strL "c2", liarId := strL "c3"
    motive := strL "money", method := strL "gas", trick := strL "latch"
    timeline := [{ time := strL "22pm", event := strL "blackout hits" }]
    evidence := [{ id := strL "e1", name := strL "key", detail := strL "a spare key"
                   relevance := strL "entry" },
                 { id := strL "e2", name := strL "wire", detail := strL "a thin wire"
                   relevance := strL "rig" },
                 { id := strL "e3", name := strL "note", detail := strL "a debt note"
                   relevance := strL "motive" },
                 { id := strL "e4", name := strL "valve", detail := strL "a gas valve"
                   relevance := strL "method" },
                 { id := strL "e5", name := strL "clock", detail := strL "a wall clock"
                   relevance := strL "timing" }]
    truth := { solution := strL "Bob did it.", whyRoomWasLocked := strL "the latch reset."
               howAlibiWasFaked := strL "a delayed rig." }
    gmRules := { disclosurePolicy := strL "hints only", liarPolicy := strL "one liar"
                 safety := strL "pg" } }

/-- A sample guess. -/
def guessA : GuessReq :=
  { killer := strL "Bob", motive := strL "money", method := strL "gas"
    trick := strL "latch", reasoning := strL "because" }

/-- A remote scoring payload carrying all seven required field names, a
`matches` value that is an (empty) dict, and an out-of-range score. -/
def badPayload : PyDict :=
  [("score", PyVal.pyInt 999),
   ("grade", PyVal.pyStr (strL "Z")),
   ("matches", PyVal.pyDict []),
   ("feedback", PyVal.pyStr []),
   ("contradictions", PyVal.pyList []),
   ("weaknesses_top3", PyVal.pyList []),
   ("solution_summary", PyVal.pyStr [])]

/-- A benign remote-call environment: the generated answer names `Alice`,
the contradiction check reports no contradiction, remote scoring returns
nothing. -/
def envA : AskEnv :=
  { answer := .ok (strL "Alice was seen near the door.")
    contra := .payload false none
    scoreGuess := .ok none }

/-- A sample question. -/
def qA : Str := strL "who was there?"

/-- A fresh game in Japanese mode with the default question budget. -/
def gameA : GameM := newGameM .ja defaultMaxQuestions

/-- A game that has already reached `RESULT`. -/
def gameResultA : GameM := { gameA with status := .RESULT }

/-- The per-attempt outcomes used against the retry loop: the first attempt
fails with a non-`APIError` handler failure (no status code at all), the
second succeeds. -/
def flakyOutcomes : Nat → Except UpstreamErr String
  | 0 => .error (.handler "Gemini returned empty text")
  | _ => .ok "recovered"

/-- The relation between a raw block line and the question it normalizes
to inside `_normalize_follow_up_questions`. -/
def NormPair (l q : Str) : Prop :=
  pyStrip l = l ∧ stripQNum l = q ∧ stripChars bulletChars q = q ∧
  l ≠ [] ∧ q ≠ []

/-- A follow-up question already in normal form and safe for the wire
protocol: whitespace-stripped, free of a leading `Qn:` marker and of edge
bullet characters, nonempty, containing no `<` and no line-break
character. -/
def CleanQuestion (q : Str) : Prop :=
  pyStrip q = q ∧ stripQNum q = q ∧ stripChars bulletChars q = q ∧
  q ≠ [] ∧ '<' ∉ q ∧ ∀ c ∈ q, isLineBreak c = false

/-! ## Theorems -/

/-- C5: `ask` on a game whose status is anything other than `PLAYING`
always fails with the `INVALID_STATE` (`conflict`) error carrying the
offending status, and `submit_guess` on a game whose status is anything
other than `GUESSING` always fails the same way; in both cases the
operation returns no updated game, so nothing is mutated. -/
theorem invalid_state_guards :
    (∀ (env : AskEnv) (caseData : CaseFileM) (game : GameM) (question : Str),
      game.status ≠ GStatus.PLAYING →
        askM env caseData game question =
          .error (conflictE "質問できるのはPLAYING状態のみです。"
            [("status", game.status.value)])) ∧
    (∀ (env : AskEnv) (caseData : CaseFileM) (game : GameM) (request : GuessReq),
      game.status ≠ GStatus.GUESSING →
        submitGuessM env caseData game request =
          .error (conflictE "推理提出はGUESSING状態のみ可能です。"
            [("status", game.status.value)])) := by
  constructor
  · intro env caseData game question h
    unfold askM
    rw [if_pos h]
  · intro env caseData game request h
    unfold submitGuessM
    rw [if_pos h]

/-- Witness for C5: a game in `RESULT` rejects `ask`, and a game in
`PLAYING` rejects `submit_guess`, both with the `INVALID_STATE` error. -/
theorem invalid_state_guards_witness :
    (gameResultA.status ≠ GStatus.PLAYING ∧
      askM envA caseA gameResultA qA =
        .error (conflictE "質問できるのはPLAYING状態のみです。"
          [("status", gameResultA.status.value)])) ∧
    (gameA.status ≠ GStatus.GUESSING ∧
      submitGuessM envA caseA gameA guessA =
        .error (conflictE "推理提出はGUESSING状態のみ可能です。"
          [("status", gameA.status.value)])) :=
  ⟨⟨by decide, invalid_state_guards.1 envA caseA gameResultA qA (by decide)⟩,
   ⟨by decide, invalid_state_guards.2 envA caseA gameA guessA (by decide)⟩⟩

/-- C2 counterexample: a payload with only the seven field names
`score, grade, matches, feedback, contradictions, weaknesses_top3,
solution_summary` — there is no eighth required field — and whose
`matches` value is the empty dict (certainly not a record of the four
booleans `killer, motive, method, trick`) is still accepted and returned
verbatim by `evaluate`, instead of being rejected in favour of
deterministic scoring. -/
theorem llm_payload_seven_fields_accepted :
    scoringEvaluate caseA guessA .ja (some badPayload) = badPayload ∧
    badPayload.lookup "matches" = some (.pyDict []) ∧
    badPayload.length = 7 :=
  ⟨rfl, rfl, rfl⟩

/-- C2 amended: a remote payload is accepted (returned verbatim) iff it is
truthy (a nonempty dict), carries the seven required field names, and its
`matches` value is itself a dict — of any shape; otherwise `evaluate`
falls through to deterministic scoring. -/
theorem llm_payload_acceptance :
    (∀ p : PyDict, llmPayloadLooksValid p = true ↔
      ((∀ k ∈ requiredScoringKeys, (p.lookup k).isSome = true) ∧
       ∃ entries, p.lookup "matches" = some (.pyDict entries))) ∧
    (∀ (caseData : CaseFileM) (guess : GuessReq) (mode : LangMode) (p : PyDict),
      scoringEvaluate caseData guess mode (some p) =
        if (!p.isEmpty && llmPayloadLooksValid p) = true then p
        else scoringEvaluate caseData guess mode none) := by
  constructor
  · intro p
    unfold llmPayloadLooksValid
    rw [Bool.and_eq_true, List.all_eq_true]
    constructor
    · rintro ⟨h1, h2⟩
      refine ⟨h1, ?_⟩
      cases hm : p.lookup "matches" with
      | none => rw [hm] at h2; simp at h2
      | some v =>
        cases v <;> rw [hm] at h2 <;> simp_all
    · rintro ⟨h1, entries, h2⟩
      exact ⟨h1, by rw [h2]⟩
  · intro caseData guess mode p
    rfl

/-- C1 counterexample: with a present `llm_result` dictionary that passes
the validity check, `evaluate` returns that payload verbatim — here with
score `999 ∉ [0,100]` and grade `"Z" ∉ {S,A,B,C}` — so the claimed bound
does not hold for every `llm_result` argument. -/
theorem evaluate_passthrough_out_of_range :
    scoringEvaluate caseA guessA .ja (some badPayload) = badPayload ∧
    (scoringEvaluate caseA guessA .ja (some badPayload)).lookup "score" =
      some (.pyInt 999) ∧
    (scoringEvaluate caseA guessA .ja (some badPayload)).lookup "grade" =
      some (.pyStr (strL "Z")) ∧
    ¬((999 : Int) ≤ 100) :=
  ⟨rfl, rfl, rfl, by decide⟩

/-- C3 counterexample: the first attempt fails with an `LLMError`-class
failure — an error that carries no upstream status code at all, hence is
not in the retryable set {408, 429, 500, 502, 503, 504} — yet the loop
retries and the call succeeds on the second attempt instead of
terminating by raising that error. -/
theorem retry_nonstatus_error_retried :
    requestWithRetry flakyOutcomes 5 = .ok "recovered" ∧
    continuesRetry (.handler "Gemini returned empty text") = true ∧
    requestWithRetry flakyOutcomes 5 ≠
      .error (joinedErrors ["Gemini returned empty text"]) := by
  refine ⟨rfl, rfl, ?_⟩
  intro h
  have hok : requestWithRetry flakyOutcomes 5 = .ok "recovered" := rfl
  rw [hok] at h
  exact Except.noConfusion h

/-- Success characterization of the retry loop body: the loop returns a
success iff some attempt within the fuel budget succeeds and every earlier
attempt failed with an error the loop continues over (a status code in the
retryable set for `APIError`s; always for the other failure classes). -/
theorem retryGo_ok_iff (outcomes : Nat → Except UpstreamErr String) :
    ∀ (fuel attempt : Nat) (errs : List String) (s : String),
      retryGo outcomes attempt fuel errs = .ok s ↔
        ∃ k, k ≤ fuel ∧ outcomes (attempt + k) = .ok s ∧
          ∀ j, j < k → ∃ e, outcomes (attempt + j) = .error e ∧
            continuesRetry e = true := by
  intro fuel
  induction fuel with
  | zero =>
    intro attempt errs s
    cases ho : outcomes attempt with
    | ok s' =>
      simp only [retryGo, ho]
      constructor
      · intro h
        injection h with hss
        subst hss
        refine ⟨0, Nat.le_refl 0, ?_, ?_⟩
        · rw [Nat.add_zero, ho]
        · intro j hj; omega
      · rintro ⟨k, hk, hok, -⟩
        have hk0 : k = 0 := Nat.le_zero.mp hk
        subst hk0
        rw [Nat.add_zero, ho] at hok
        injection hok with hss
        subst hss
        rfl
    | error e =>
      simp only [retryGo, ho]
      constructor
      · intro h; exact Except.noConfusion h
      · rintro ⟨k, hk, hok, -⟩
        have hk0 : k = 0 := Nat.le_zero.mp hk
        subst hk0
        rw [Nat.add_zero, ho] at hok
        exact Except.noConfusion hok
  | succ fuel ih =>
    intro attempt errs s
    cases ho : outcomes attempt with
    | ok s' =>
      simp only [retryGo, ho]
      constructor
      · intro h
        injection h with hss
        subst hss
        refine ⟨0, Nat.zero_le _, ?_, ?_⟩
        · rw [Nat.add_zero, ho]
        · intro j hj; omega
      · rintro ⟨k, hk, hok, hprev⟩
        cases k with
        | zero =>
          rw [Nat.add_zero, ho] at hok
          injection hok with hss
          subst hss
          rfl
        | succ k' =>
          obtain ⟨e, he, -⟩ := hprev 0 (Nat.succ_pos k')
          rw [Nat.add_zero, ho] at he
          exact Except.noConfusion he
    | error e =>
      simp only [retryGo, ho]
      by_cases hc : continuesRetry e = true
      · rw [if_pos hc, ih (attempt + 1) (errs ++ [formatAttemptError e]) s]
        constructor
        · rintro ⟨k, hk, hok, hprev⟩
          have harith : attempt + 1 + k = attempt + (k + 1) := by omega
          rw [harith] at hok
          refine ⟨k + 1, by omega, hok, ?_⟩
          intro j hj
          cases j with
          | zero => exact ⟨e, by rw [Nat.add_zero, ho], hc⟩
          | succ j' =>
            obtain ⟨e', he', hce'⟩ := hprev j' (by omega)
            have harith2 : attempt + 1 + j' = attempt + (j' + 1) := by omega
            rw [harith2] at he'
            exact ⟨e', he', hce'⟩
        · rintro ⟨k, hk, hok, hprev⟩
          cases k with
          | zero =>
            rw [Nat.add_zero, ho] at hok
            exact Except.noConfusion hok
          | succ k' =>
            have harith : attempt + (k' + 1) = attempt + 1 + k' := by omega
            rw [harith] at hok
            refine ⟨k', by omega, hok, ?_⟩
            intro j hj
            obtain ⟨e', he', hce'⟩ := hprev (j + 1) (by omega)
            have harith2 : attempt + (j + 1) = attempt + 1 + j := by omega
            rw [harith2] at he'
            exact ⟨e', he', hce'⟩
      · rw [if_neg hc]
        constructor
        · intro h; exact Except.noConfusion h
        · rintro ⟨k, hk, hok, hprev⟩
          cases k with
          | zero =>
            rw [Nat.add_zero, ho] at hok
            exact Except.noConfusion hok
          | succ k' =>
            obtain ⟨e', he', hce'⟩ := hprev 0 (Nat.succ_pos k')
            rw [Nat.add_zero, ho] at he'
            injection he' with he''
            subst he''
            exact absurd hce' hc

/-- Failure characterization of the retry loop body: if the attempts up to
`k` all fail, the failures before `k` are all loop-continuing, and attempt
`k` either exhausts the fuel or fails with a non-continuing error, then the
loop returns the accumulated attempt errors, joined, as its error. -/
theorem retryGo_error_char (outcomes : Nat → Except UpstreamErr String) :
    ∀ (fuel attempt : Nat) (errs : List String) (k : Nat)
      (es : Nat → UpstreamErr),
      k ≤ fuel →
      (∀ j, j ≤ k → outcomes (attempt + j) = .error (es j)) →
      (∀ j, j < k → continuesRetry (es j) = true) →
      (k = fuel ∨ continuesRetry (es k) = false) →
      retryGo outcomes attempt fuel errs =
        .error (joinedErrors (errs ++ (List.range (k + 1)).map
          (fun j => formatAttemptError (es j)))) := by
  intro fuel
  induction fuel with
  | zero =>
    intro attempt errs k es hk hout hcont hterm
    have hk0 : k = 0 := Nat.le_zero.mp hk
    subst hk0
    have h0 : outcomes attempt = .error (es 0) := by
      have := hout 0 (Nat.le_refl 0)
      rwa [Nat.add_zero] at this
    simp only [retryGo, h0]
    rfl
  | succ fuel ih =>
    intro attempt errs k es hk hout hcont hterm
    have h0 : outcomes attempt = .error (es 0) := by
      have := hout 0 (Nat.zero_le _)
      rwa [Nat.add_zero] at this
    cases k with
    | zero =>
      have hcr : continuesRetry (es 0) = false := by
        rcases hterm with h | h
        · omega
        · exact h
      simp only [retryGo, h0]
      rw [if_neg (by rw [hcr]; exact Bool.false_ne_true)]
      rfl
    | succ k' =>
      have hcr : continuesRetry (es 0) = true := hcont 0 (Nat.succ_pos k')
      simp only [retryGo, h0]
      rw [if_pos hcr]
      have hrec := ih (attempt + 1) (errs ++ [formatAttemptError (es 0)]) k'
        (fun j => es (j + 1)) (by omega)
        (fun j hj => by
          have := hout (j + 1) (by omega)
          rwa [show attempt + (j + 1) = attempt + 1 + j from by omega] at this)
        (fun j hj => hcont (j + 1) (by omega))
        (by
          rcases hterm with h | h
          · exact Or.inl (by omega)
          · exact Or.inr h)
      rw [hrec]
      simp only [List.append_assoc, List.singleton_append,
        List.range_succ_eq_map, List.map_cons, List.map_map, Function.comp,
        Nat.succ_eq_add_one]
      rfl

/-- C3 amended: in the retrying request loop a failed attempt is followed
by another attempt iff attempts remain and the failure is either an
`APIError` whose integer status code lies in {408, 429, 500, 502, 503,
504}, or a non-`APIError` failure (`LLMError` / unexpected exception),
which the loop always retries.  Concretely: (1) the call succeeds iff some
attempt below `max(1, max_attempts)` succeeds and all earlier attempts
failed with such loop-continuing errors; and (2) whenever every attempt up
to `k` fails, all failures before `k` are loop-continuing, and attempt `k`
is the last allowed attempt or a non-continuing failure, the call
terminates by raising an `LLMError` carrying all the accumulated attempt
errors joined together. -/
theorem retry_policy_characterization (outcomes : Nat → Except UpstreamErr String)
    (n : Nat) :
    (∀ s, requestWithRetry outcomes n = .ok s ↔
      ∃ k, k < max 1 n ∧ outcomes k = .ok s ∧
        ∀ j, j < k → ∃ e, outcomes j = .error e ∧ continuesRetry e = true) ∧
    (∀ (k : Nat) (es : Nat → UpstreamErr),
      k < max 1 n →
      (∀ j, j ≤ k → outcomes j = .error (es j)) →
      (∀ j, j < k → continuesRetry (es j) = true) →
      (k = max 1 n - 1 ∨ continuesRetry (es k) = false) →
      requestWithRetry outcomes n =
        .error (joinedErrors ((List.range (k + 1)).map
          (fun j => formatAttemptError (es j))))) := by
  constructor
  · intro s
    unfold requestWithRetry
    rw [retryGo_ok_iff]
    constructor
    · rintro ⟨k, hk, hok, hprev⟩
      refine ⟨k, by omega, by simpa using hok, ?_⟩
      intro j hj
      simpa using hprev j hj
    · rintro ⟨k, hk, hok, hprev⟩
      refine ⟨k, by omega, by simpa using hok, ?_⟩
      intro j hj
      simpa using hprev j hj
  · intro k es hk hout hcont hterm
    unfold requestWithRetry
    have h := retryGo_error_char outcomes (max 1 n - 1) 0 [] k es (by omega)
      (fun j hj => by simpa using hout j hj)
      hcont hterm
    simpa using h

/-- Witness for C3: a single `APIError` with the non-retryable status 400
terminates the call at once, raising the joined accumulated errors. -/
theorem retry_policy_characterization_witness :
    requestWithRetry (fun _ => .error (.api (some 400) "BAD" "boom")) 3 =
      .error (joinedErrors ((List.range 1).map (fun _ =>
        formatAttemptError (.api (some 400) "BAD" "boom")))) :=
  (retry_policy_characterization
      (fun _ => .error (.api (some 400) "BAD" "boom")) 3).2
    0 (fun _ => .api (some 400) "BAD" "boom") (by decide)
    (fun _ _ => rfl) (fun j hj => absurd hj (Nat.not_lt_zero j))
    (Or.inr (by decide))

/-- A longest common subsequence of a list with itself is the whole list. -/
theorem lcsLen_self (l : Str) : lcsLen l l = l.length := by
  induction l with
  | nil => simp [lcsLen]
  | cons c t ih => simp [lcsLen, ih]

/-- The similarity ratio of a normalized text with itself is `1`. -/
theorem smRatio_self (l : Str) : smRatio l l = 1 := by
  unfold smRatio
  by_cases h : l.length + l.length = 0
  · rw [if_pos h]
  · rw [if_neg h, lcsLen_self]
    have hL : 0 < l.length := by omega
    have hq : (0 : ℚ) < (l.length : ℚ) := by exact_mod_cast hL
    have hsum : ((l.length : ℚ) + (l.length : ℚ)) ≠ 0 := ne_of_gt (by linarith)
    field_simp
    ring

/-- The similarity ratio is never negative. -/
theorem smRatio_nonneg (a b : Str) : 0 ≤ smRatio a b := by
  unfold smRatio
  split
  · norm_num
  · apply div_nonneg
    · positivity
    · positivity

/-- The token-overlap ratio never exceeds `1`: the intersection is no
bigger than the truth token set, whose size is at most the denominator. -/
theorem overlap_le_one (a t : Str) :
    (((tokFin a ∩ tokFin t).card : ℚ) / (max 1 ((tokFin t).card : ℚ))) ≤ 1 := by
  rw [div_le_one (lt_of_lt_of_le zero_lt_one (le_max_left _ _))]
  calc ((tokFin a ∩ tokFin t).card : ℚ) ≤ ((tokFin t).card : ℚ) := by
        exact_mod_cast Finset.card_le_card Finset.inter_subset_right
    _ ≤ max 1 ((tokFin t).card : ℚ) := le_max_right _ _

/-- Python `round` of a non-negative rational is non-negative. -/
theorem pyRound_nonneg (q : ℚ) (h : 0 ≤ q) : 0 ≤ pyRound q := by
  simp only [pyRound]
  split_ifs with h1 h2
  · exact Int.floor_nonneg.mpr h
  · have := Int.floor_nonneg.mpr h
    omega
  · exact Int.floor_nonneg.mpr (by linarith)

/-- Python `round` of an exact integer is that integer. -/
theorem pyRound_intCast (n : Int) : pyRound (n : ℚ) = n := by
  simp only [pyRound, Int.floor_intCast]
  rw [if_neg (by norm_num)]
  rw [add_comm, Int.floor_add_int]
  norm_num

/-- The point component of `_semantic_score` always lies in `[0, 20]`. -/
theorem semanticScore_fst_bounds (a t : Str) :
    0 ≤ (semanticScore a t 20).1 ∧ (semanticScore a t 20).1 ≤ 20 := by
  by_cases hc : ((normalizeT a).isEmpty || (normalizeT t).isEmpty) = true
  · simp only [semanticScore, if_pos hc]
    norm_num
  · simp only [semanticScore, if_neg hc]
    constructor
    · apply le_min (by norm_num)
      apply pyRound_nonneg
      apply mul_nonneg (by norm_num)
      exact le_trans (smRatio_nonneg _ _) (le_max_left _ _)
    · exact min_le_left _ _

/-- `_semantic_score` of a ground-truth text against itself scores the full
20 points and counts as a match, provided the text does not normalize to
the empty string. -/
theorem semanticScore_self20 (t : Str) (h : normalizeT t ≠ []) :
    semanticScore t t 20 = (20, true) := by
  have hne : (normalizeT t).isEmpty = false := by
    cases hn : normalizeT t with
    | nil => exact absurd hn h
    | cons c l => rfl
  simp only [semanticScore, hne, Bool.or_self]
  rw [if_neg (by simp)]
  rw [smRatio_self, max_eq_left (overlap_le_one t t), mul_one, pyRound_intCast]
  have hth : matchThreshold 20 = 12 := by
    unfold matchThreshold
    have h12 : ((3 : ℚ) * ((20 : Int) : ℚ) / 5) = ((12 : Int) : ℚ) := by norm_num
    rw [h12, Int.floor_intCast]
  rw [hth]
  decide

/-- `_semantic_score` returns zero points and no match when the guess text
normalizes to the empty string. -/
theorem semanticScore_empty_left (a t : Str) (h : normalizeT a = []) :
    semanticScore a t 20 = (0, false) := by
  unfold semanticScore
  rw [if_pos (by rw [h]; simp)]

/-- The deterministic total score lies in `[0, 100]`. -/
theorem detScore_bounds (caseData : CaseFileM) (guess : GuessReq) :
    0 ≤ detScore caseData guess ∧ detScore caseData guess ≤ 100 := by
  obtain ⟨h1a, h1b⟩ := semanticScore_fst_bounds guess.motive caseData.motive
  obtain ⟨h2a, h2b⟩ := semanticScore_fst_bounds guess.method caseData.method
  obtain ⟨h3a, h3b⟩ := semanticScore_fst_bounds guess.trick caseData.trick
  unfold detScore
  split <;> omega

/-- The grade band is always one of `S`, `A`, `B`, `C`. -/
theorem gradeOf_mem (score : Int) :
    gradeOf score = strL "S" ∨ gradeOf score = strL "A" ∨
    gradeOf score = strL "B" ∨ gradeOf score = strL "C" := by
  unfold gradeOf
  split
  · exact Or.inl rfl
  · split
    · exact Or.inr (Or.inl rfl)
    · split
      · exact Or.inr (Or.inr (Or.inl rfl))
      · exact Or.inr (Or.inr (Or.inr rfl))

/-- C1 amended: for every case, guess and language mode, whenever the
`llm_result` argument is absent or fails the truthiness/validity check
(so that deterministic scoring runs), `evaluate` returns a payload whose
`score` lies in `[0, 100]` and whose `grade` is one of S, A, B, C.  (A
payload passing the check is returned verbatim instead, see the
counterexample.) -/
theorem evaluate_deterministic_range (caseData : CaseFileM) (guess : GuessReq)
    (mode : LangMode) (llmResult : Option PyDict)
    (h : ∀ p, llmResult = some p → (!p.isEmpty && llmPayloadLooksValid p) ≠ true) :
    ∃ n : Int,
      (scoringEvaluate caseData guess mode llmResult).lookup "score" =
        some (.pyInt n) ∧
      0 ≤ n ∧ n ≤ 100 ∧
      ∃ g, (scoringEvaluate caseData guess mode llmResult).lookup "grade" =
          some (.pyStr g) ∧
        (g = strL "S" ∨ g = strL "A" ∨ g = strL "B" ∨ g = strL "C") := by
  have hdet : scoringEvaluate caseData guess mode llmResult =
      detEvaluate caseData guess mode := by
    cases llmResult with
    | none => rfl
    | some p =>
      have hp := h p rfl
      show (if (!p.isEmpty && llmPayloadLooksValid p) = true then p
            else detEvaluate caseData guess mode) = detEvaluate caseData guess mode
      rw [if_neg hp]
  rw [hdet]
  exact ⟨detScore caseData guess, rfl, (detScore_bounds _ _).1,
    (detScore_bounds _ _).2, gradeOf (detScore caseData guess), rfl,
    gradeOf_mem _⟩

/-- Witness for C1 amended: the deterministic path at a concrete case and
guess (with `llm_result = None`) satisfies the range property. -/
theorem evaluate_deterministic_range_witness :
    ∃ n : Int,
      (scoringEvaluate caseA guessA .ja none).lookup "score" = some (.pyInt n) ∧
      0 ≤ n ∧ n ≤ 100 ∧
      ∃ g, (scoringEvaluate caseA guessA .ja none).lookup "grade" =
          some (.pyStr g) ∧
        (g = strL "S" ∨ g = strL "A" ∨ g = strL "B" ∨ g = strL "C") :=
  evaluate_deterministic_range caseA guessA .ja none (fun _ hp => by cases hp)

/-- C7: under deterministic scoring (no remote payload), a guess whose
killer text equals the true killer's name and whose motive, method and
trick are the case's ground-truth texts verbatim scores 100 with grade S
(for ground truths that do not normalize to the empty string, as in every
real case); and a guess with the correct killer whose motive, method and
trick all normalize to empty scores exactly 40 with grade C. -/
theorem exact_and_empty_guess_scores (caseData : CaseFileM) (mode : LangMode)
    (r : Str) (killerCh : CharacterM)
    (hfind : caseData.characters.find? (fun c => c.id = caseData.killerId) =
      some killerCh)
    (hm : normalizeT caseData.motive ≠ [])
    (hme : normalizeT caseData.method ≠ [])
    (ht : normalizeT caseData.trick ≠ []) :
    ((scoringEvaluate caseData
        ⟨killerCh.name, caseData.motive, caseData.method, caseData.trick, r⟩
        mode none).lookup "score" = some (.pyInt 100) ∧
     (scoringEvaluate caseData
        ⟨killerCh.name, caseData.motive, caseData.method, caseData.trick, r⟩
        mode none).lookup "grade" = some (.pyStr (strL "S"))) ∧
    (∀ gm gme gt : Str, normalizeT gm = [] → normalizeT gme = [] →
      normalizeT gt = [] →
      (scoringEvaluate caseData ⟨killerCh.name, gm, gme, gt, r⟩ mode
          none).lookup "score" = some (.pyInt 40) ∧
      (scoringEvaluate caseData ⟨killerCh.name, gm, gme, gt, r⟩ mode
          none).lookup "grade" = some (.pyStr (strL "C"))) := by
  have hkiller : killerOf caseData = killerCh := by
    unfold killerOf
    rw [hfind]
    rfl
  have hkm : ∀ m1 m2 m3 : Str,
      killerMatchOf caseData ⟨killerCh.name, m1, m2, m3, r⟩ = true := by
    intro m1 m2 m3
    unfold killerMatchOf
    rw [hkiller]
    simp
  constructor
  · have hds : detScore caseData
        ⟨killerCh.name, caseData.motive, caseData.method, caseData.trick, r⟩ = 100 := by
      unfold detScore
      rw [hkm]
      show (40 : Int) + _ + _ + _ = 100
      rw [semanticScore_self20 _ hm, semanticScore_self20 _ hme,
        semanticScore_self20 _ ht]
      norm_num
    have hs : (scoringEvaluate caseData
        ⟨killerCh.name, caseData.motive, caseData.method, caseData.trick, r⟩
        mode none).lookup "score" = some (.pyInt (detScore caseData
          ⟨killerCh.name, caseData.motive, caseData.method, caseData.trick, r⟩)) := rfl
    have hg : (scoringEvaluate caseData
        ⟨killerCh.name, caseData.motive, caseData.method, caseData.trick, r⟩
        mode none).lookup "grade" = some (.pyStr (gradeOf (detScore caseData
          ⟨killerCh.name, caseData.motive, caseData.method, caseData.trick, r⟩))) := rfl
    rw [hs, hg, hds]
    rw [show gradeOf (100 : Int) = strL "S" from by decide]
    exact ⟨rfl, rfl⟩
  · intro gm gme gt hgm hgme hgt
    have hds : detScore caseData ⟨killerCh.name, gm, gme, gt, r⟩ = 40 := by
      unfold detScore
      rw [hkm]
      show (40 : Int) + _ + _ + _ = 40
      rw [semanticScore_empty_left _ _ hgm, semanticScore_empty_left _ _ hgme,
        semanticScore_empty_left _ _ hgt]
      norm_num
    have hs : (scoringEvaluate caseData ⟨killerCh.name, gm, gme, gt, r⟩ mode
        none).lookup "score" = some (.pyInt (detScore caseData
          ⟨killerCh.name, gm, gme, gt, r⟩)) := rfl
    have hg : (scoringEvaluate caseData ⟨killerCh.name, gm, gme, gt, r⟩ mode
        none).lookup "grade" = some (.pyStr (gradeOf (detScore caseData
          ⟨killerCh.name, gm, gme, gt, r⟩))) := rfl
    rw [hs, hg, hds]
    rw [show gradeOf (40 : Int) = strL "C" from by decide]
    exact ⟨rfl, rfl⟩

/-- Witness for C7: in the concrete case, the verbatim guess scores 100/S
and the empty-fields guess scores 40/C. -/
theorem exact_and_empty_guess_scores_witness :
    caseA.characters.find? (fun c => c.id = caseA.killerId) = some charA2 ∧
    normalizeT caseA.motive ≠ [] ∧
    ((scoringEvaluate caseA
        ⟨charA2.name, caseA.motive, caseA.method, caseA.trick, strL "because"⟩
        .ja none).lookup "score" = some (.pyInt 100) ∧
     (scoringEvaluate caseA
        ⟨charA2.name, caseA.motive, caseA.method, caseA.trick, strL "because"⟩
        .ja none).lookup "grade" = some (.pyStr (strL "S"))) ∧
    ((scoringEvaluate caseA
        ⟨charA2.name, strL " ", strL " ", strL " ", strL "because"⟩
        .ja none).lookup "score" = some (.pyInt 40) ∧
     (scoringEvaluate caseA
        ⟨charA2.name, strL " ", strL " ", strL " ", strL "because"⟩
        .ja none).lookup "grade" = some (.pyStr (strL "C"))) := by
  refine ⟨by decide, by decide, ?_, ?_⟩
  · exact (exact_and_empty_guess_scores caseA .ja (strL "because") charA2
      (by decide) (by decide) (by decide) (by decide)).1
  · exact (exact_and_empty_guess_scores caseA .ja (strL "because") charA2
      (by decide) (by decide) (by decide) (by decide)).2
      (strL " ") (strL " ") (strL " ") (by decide) (by decide) (by decide)

/-- Inversion for `askM`: a successful `ask` implies the game was in
`PLAYING`, the generator produced some raw answer, and the result is the
`askSuccess` of that answer. -/
theorem askM_ok_inv (env : AskEnv) (caseData : CaseFileM) (game : GameM)
    (question : Str) (p : GameM × AskOut)
    (h : askM env caseData game question = .ok p) :
    game.status = .PLAYING ∧ ∃ raw, env.answer = .ok raw ∧
      p = askSuccess env caseData game question raw := by
  unfold askM at h
  by_cases hst : game.status = .PLAYING
  · rw [if_neg (fun hne => hne hst)] at h
    cases ha : env.answer with
    | error c =>
        rw [ha] at h
        exact Except.noConfusion h
    | ok raw =>
        rw [ha] at h
        have h' : Except.ok (ε := AppErrorM)
            (askSuccess env caseData game question raw) = Except.ok p := h
        injection h' with h''
        exact ⟨hst, raw, rfl, h''.symm⟩
  · rw [if_pos hst] at h
    exact Except.noConfusion h

/-- The updated game of a successful `ask` carries one question fewer
(natural-number subtraction models the floor at 0). -/
theorem askSuccess_game_remaining (env : AskEnv) (caseData : CaseFileM)
    (game : GameM) (question raw : Str) :
    (askSuccess env caseData game question raw).1.remainingQuestions =
      game.remainingQuestions - 1 := rfl

/-- The response of a successful `ask` reports the decremented counter. -/
theorem askSuccess_out_remaining (env : AskEnv) (caseData : CaseFileM)
    (game : GameM) (question raw : Str) :
    (askSuccess env caseData game question raw).2.remainingQuestions =
      game.remainingQuestions - 1 := rfl

/-- The updated status of a successful `ask`. -/
theorem askSuccess_game_status (env : AskEnv) (caseData : CaseFileM)
    (game : GameM) (question raw : Str) :
    (askSuccess env caseData game question raw).1.status =
      (if game.remainingQuestions - 1 = 0 then GStatus.GUESSING
       else game.status) := rfl

/-- The response status equals the updated game status. -/
theorem askSuccess_out_status (env : AskEnv) (caseData : CaseFileM)
    (game : GameM) (question raw : Str) :
    (askSuccess env caseData game question raw).2.status =
      (askSuccess env caseData game question raw).1.status := rfl

/-- The answer returned by a successful `ask` is the named-actor guard
applied to the contradiction-checked split answer. -/
theorem askSuccess_answerText (env : AskEnv) (caseData : CaseFileM)
    (game : GameM) (question raw : Str) :
    (askSuccess env caseData game question raw).2.answerText =
      finalizeAnswer caseData question game.languageMode
        (applyContradiction env caseData game.languageMode
          (historyOfGame game).length
          (askPre caseData game.languageMode (historyOfGame game).length raw)).1 := rfl

/-- The follow-up questions returned by a successful `ask`. -/
theorem askSuccess_followUps (env : AskEnv) (caseData : CaseFileM)
    (game : GameM) (question raw : Str) :
    (askSuccess env caseData game question raw).2.followUpQuestions =
      (applyContradiction env caseData game.languageMode
        (historyOfGame game).length
        (askPre caseData game.languageMode (historyOfGame game).length raw)).2 := rfl

/-- C6: each successful `ask` decrements the remaining-question counter by
exactly 1 (floored at 0) and sets status to `GUESSING` exactly when the
counter reaches 0; concretely, from a fresh game with the default 12
remaining questions, one `ask` leaves 11 remaining in `PLAYING` and twelve
`ask` calls leave 0 remaining in `GUESSING`. -/
theorem ask_decrements_counter :
    (∀ (env : AskEnv) (caseData : CaseFileM) (game : GameM) (question : Str)
       (p : GameM × AskOut),
      game.status = .PLAYING →
      askM env caseData game question = .ok p →
      p.1.remainingQuestions = game.remainingQuestions - 1 ∧
      p.2.remainingQuestions = game.remainingQuestions - 1 ∧
      (p.1.status = .GUESSING ↔ p.1.remainingQuestions = 0) ∧
      p.2.status = p.1.status) ∧
    (runState (askIter envA caseA qA 1 gameA) = some (11, .PLAYING) ∧
     runState (askIter envA caseA qA 12 gameA) = some (0, .GUESSING)) := by
  constructor
  · intro env caseData game question p hst h
    obtain ⟨-, raw, -, hp⟩ := askM_ok_inv env caseData game question p h
    subst hp
    refine ⟨rfl, rfl, ?_, rfl⟩
    rw [askSuccess_game_status, askSuccess_game_remaining]
    by_cases h0 : game.remainingQuestions - 1 = 0
    · rw [if_pos h0]
      exact ⟨fun _ => h0, fun _ => rfl⟩
    · rw [if_neg h0, hst]
      constructor
      · intro hc
        exact absurd hc (by decide)
      · intro hc
        exact absurd hc h0
  · constructor
    · decide
    · decide

/-- Witness for C6: one concrete successful `ask` on a fresh game
decrements the counter from 12 to 11 and keeps the status out of
`GUESSING`. -/
theorem ask_decrements_counter_witness :
    gameA.status = GStatus.PLAYING ∧
    ∃ p, askM envA caseA gameA qA = .ok p ∧
      (p.1.remainingQuestions = gameA.remainingQuestions - 1 ∧
       p.2.remainingQuestions = gameA.remainingQuestions - 1 ∧
       (p.1.status = .GUESSING ↔ p.1.remainingQuestions = 0) ∧
       p.2.status = p.1.status) :=
  ⟨rfl, askSuccess envA caseA gameA qA (strL "Alice was seen near the door."),
   rfl, ask_decrements_counter.1 envA caseA gameA qA _ rfl rfl⟩

/-- The Boolean prefix test accepts a list followed by anything. -/
theorem isPrefixOf_self_append (p t : Str) : p.isPrefixOf (p ++ t) = true := by
  induction p with
  | nil => simp [List.isPrefixOf]
  | cons c p ih => simp [List.isPrefixOf, ih]

/-- `findSub` succeeds when the pattern is a prefix of the text. -/
theorem findSub_isSome_of_isPrefixOf (pat s : Str)
    (h : pat.isPrefixOf s = true) : (findSub pat s).isSome = true := by
  cases s with
  | nil => simp [findSub, h]
  | cons c t => simp [findSub, h]

/-- A string contains a pattern it starts with. -/
theorem containsSub_self_append (x t : Str) : containsSub (x ++ t) x = true :=
  findSub_isSome_of_isPrefixOf _ _ (isPrefixOf_self_append x t)

/-- A string contains itself. -/
theorem containsSub_self (x : Str) : containsSub x x = true := by
  have := containsSub_self_append x []
  simpa using this

/-- Containment is preserved by prepending text. -/
theorem containsSub_append_left (a b x : Str) (h : containsSub b x = true) :
    containsSub (a ++ b) x = true := by
  induction a with
  | nil => simpa using h
  | cons c a ih =>
    simp only [List.cons_append, containsSub, findSub, List.append_eq]
    by_cases hp : x.isPrefixOf (c :: (a ++ b)) = true
    · rw [if_pos hp]
      rfl
    · rw [if_neg hp]
      simpa [Option.isSome_map] using ih

/-- A case with at least three characters starts with three of them. -/
theorem chars3 (caseData : CaseFileM) (h : 3 ≤ caseData.characters.length) :
    ∃ a b c rest, caseData.characters = a :: b :: c :: rest := by
  cases hl : caseData.characters with
  | nil => rw [hl] at h; simp at h
  | cons a t =>
    cases t with
    | nil => rw [hl] at h; simp at h
    | cons b t2 =>
      cases t2 with
      | nil => rw [hl] at h; simp at h
      | cons c rest => exact ⟨a, b, c, rest, rfl⟩

/-- In every branch, the explicit-actor fallback answer contains the first
character's name and alibi claim, plus the name and alibi claim of one
other of the first three characters. -/
theorem buildExplicit_core (caseData : CaseFileM) (question : Str) (mode : LangMode) :
    containsSub (buildExplicitActorAnswer caseData question mode)
      (caseData.characters.getD 0 dfltChar).name = true ∧
    containsSub (buildExplicitActorAnswer caseData question mode)
      (caseData.characters.getD 0 dfltChar).alibi = true ∧
    ∃ j, j < 3 ∧ j ≠ 0 ∧
      containsSub (buildExplicitActorAnswer caseData question mode)
        (caseData.characters.getD j dfltChar).name = true ∧
      containsSub (buildExplicitActorAnswer caseData question mode)
        (caseData.characters.getD j dfltChar).alibi = true := by
  cases mode with
  | en =>
    simp only [buildExplicitActorAnswer]
    split_ifs with h1 h2
    · refine ⟨?_, ?_, 1, by norm_num, by norm_num, ?_, ?_⟩ <;>
        (simp only [List.append_assoc];
         repeat first
          | exact containsSub_self _
          | exact containsSub_self_append _ _
          | apply containsSub_append_left)
    · refine ⟨?_, ?_, 1, by norm_num, by norm_num, ?_, ?_⟩ <;>
        (simp only [List.append_assoc];
         repeat first
          | exact containsSub_self _
          | exact containsSub_self_append _ _
          | apply containsSub_append_left)
    · refine ⟨?_, ?_, 2, by norm_num, by norm_num, ?_, ?_⟩ <;>
        (simp only [List.append_assoc];
         repeat first
          | exact containsSub_self _
          | exact containsSub_self_append _ _
          | apply containsSub_append_left)
  | ja =>
    simp only [buildExplicitActorAnswer]
    split_ifs with h1 h2
    · refine ⟨?_, ?_, 1, by norm_num, by norm_num, ?_, ?_⟩ <;>
        (simp only [List.append_assoc];
         repeat first
          | exact containsSub_self _
          | exact containsSub_self_append _ _
          | apply containsSub_append_left)
    · refine ⟨?_, ?_, 1, by norm_num, by norm_num, ?_, ?_⟩ <;>
        (simp only [List.append_assoc];
         repeat first
          | exact containsSub_self _
          | exact containsSub_self_append _ _
          | apply containsSub_append_left)
    · refine ⟨?_, ?_, 2, by norm_num, by norm_num, ?_, ?_⟩ <;>
        (simp only [List.append_assoc];
         repeat first
          | exact containsSub_self _
          | exact containsSub_self_append _ _
          | apply containsSub_append_left)

/-- C8: the answer text returned by every successful `ask` contains some
character's display name of the case as an exact substring; and whenever
the generated answer names no character, the returned answer is the
deterministic explicit-actor fallback — a pure function of the case, the
question and the language mode — which names two of the case's first three
characters together with their alibi claims. -/
theorem answer_names_actor :
    (∀ (env : AskEnv) (caseData : CaseFileM) (game : GameM) (question : Str)
       (p : GameM × AskOut),
      3 ≤ caseData.characters.length →
      askM env caseData game question = .ok p →
      ∃ ch ∈ caseData.characters, containsSub p.2.answerText ch.name = true) ∧
    (∀ (caseData : CaseFileM) (question : Str) (mode : LangMode) (answer : Str),
      3 ≤ caseData.characters.length →
      answerHasNamedActor answer caseData = false →
      finalizeAnswer caseData question mode answer =
        buildExplicitActorAnswer caseData question mode ∧
      ∃ i j, i < 3 ∧ j < 3 ∧ i ≠ j ∧
        containsSub (buildExplicitActorAnswer caseData question mode)
          (caseData.characters.getD i dfltChar).name = true ∧
        containsSub (buildExplicitActorAnswer caseData question mode)
          (caseData.characters.getD i dfltChar).alibi = true ∧
        containsSub (buildExplicitActorAnswer caseData question mode)
          (caseData.characters.getD j dfltChar).name = true ∧
        containsSub (buildExplicitActorAnswer caseData question mode)
          (caseData.characters.getD j dfltChar).alibi = true) := by
  constructor
  · intro env caseData game question p h3 h
    obtain ⟨-, raw, -, hp⟩ := askM_ok_inv env caseData game question p h
    subst hp
    rw [askSuccess_answerText]
    set mid := (applyContradiction env caseData game.languageMode
      (historyOfGame game).length
      (askPre caseData game.languageMode (historyOfGame game).length raw)).1 with hmid
    unfold finalizeAnswer
    by_cases hna : answerHasNamedActor mid caseData = true
    · rw [if_pos hna]
      unfold answerHasNamedActor at hna
      obtain ⟨ch, hmem, hcc⟩ := List.any_eq_true.mp hna
      exact ⟨ch, hmem, hcc⟩
    · rw [if_neg hna]
      obtain ⟨a, b, c, rest, hchars⟩ := chars3 caseData h3
      obtain ⟨hn, -, -⟩ := buildExplicit_core caseData question game.languageMode
      refine ⟨caseData.characters.getD 0 dfltChar, ?_, hn⟩
      rw [hchars]
      exact List.mem_cons_self a _
  · intro caseData question mode answer h3 hno
    constructor
    · unfold finalizeAnswer
      rw [if_neg (by rw [hno]; simp)]
    · obtain ⟨hn, ha, j, hj3, hj0, hjn, hja⟩ :=
        buildExplicit_core caseData question mode
      exact ⟨0, j, by norm_num, hj3, fun h0 => hj0 h0.symm, hn, ha, hjn, hja⟩

/-- Witness for C8: the concrete `ask` answer names a character, and a
concrete answer naming nobody is replaced by the explicit-actor fallback. -/
theorem answer_names_actor_witness :
    (3 ≤ caseA.characters.length ∧
     ∃ p, askM envA caseA gameA qA = .ok p ∧
       ∃ ch ∈ caseA.characters, containsSub p.2.answerText ch.name = true) ∧
    (answerHasNamedActor (strL "nobody here") caseA = false ∧
     finalizeAnswer caseA qA .ja (strL "nobody here") =
       buildExplicitActorAnswer caseA qA .ja) := by
  refine ⟨⟨by decide,
    askSuccess envA caseA gameA qA (strL "Alice was seen near the door."),
    rfl, ?_⟩, ⟨by decide, ?_⟩⟩
  · exact answer_names_actor.1 envA caseA gameA qA _ (by decide) rfl
  · exact (answer_names_actor.2 caseA qA .ja (strL "nobody here")
      (by decide) (by decide)).1

/-- A contradiction result that is not a dict with a truthy flag and a
truthy `fixed_answer` leaves the answer/follow-up pair untouched. -/
theorem applyContradiction_skip (env : AskEnv) (caseData : CaseFileM)
    (mode : LangMode) (hcount : Nat) (pre : Str × List Str)
    (h : env.contra = .nonDict ∨ (∃ fx, env.contra = .payload false fx) ∨
      env.contra = .payload true none) :
    applyContradiction env caseData mode hcount pre = pre := by
  unfold applyContradiction
  rcases h with h | ⟨fx, h⟩ | h
  · rw [h]
  · rw [h]
  · rw [h]

/-- C10: when the contradiction check returns successfully but its payload
is not a dict, or is a dict without both a truthy `contradiction` flag and
a truthy `fixed_answer`, `ask` behaves exactly as if no contradiction had
been flagged: its result equals the run with the canonical no-contradiction
payload, no error is raised, and the returned follow-up questions (and the
answer, up to the always-applied named-actor guard) are the ones computed
before the check. -/
theorem contradiction_soft_skip (env : AskEnv) (caseData : CaseFileM)
    (game : GameM) (question raw : Str)
    (hst : game.status = .PLAYING) (hra : env.answer = .ok raw)
    (h : env.contra = .nonDict ∨ (∃ fx, env.contra = .payload false fx) ∨
      env.contra = .payload true none) :
    askM env caseData game question =
      askM (envNoContra env) caseData game question ∧
    ∃ p, askM env caseData game question = .ok p ∧
      p.2.answerText = finalizeAnswer caseData question game.languageMode
        (askPre caseData game.languageMode (historyOfGame game).length raw).1 ∧
      p.2.followUpQuestions =
        (askPre caseData game.languageMode (historyOfGame game).length raw).2 := by
  have hpre : applyContradiction env caseData game.languageMode
      (historyOfGame game).length
      (askPre caseData game.languageMode (historyOfGame game).length raw) =
      askPre caseData game.languageMode (historyOfGame game).length raw :=
    applyContradiction_skip env caseData game.languageMode
      (historyOfGame game).length _ h
  have hpre' : applyContradiction (envNoContra env) caseData game.languageMode
      (historyOfGame game).length
      (askPre caseData game.languageMode (historyOfGame game).length raw) =
      askPre caseData game.languageMode (historyOfGame game).length raw :=
    applyContradiction_skip (envNoContra env) caseData game.languageMode
      (historyOfGame game).length _ (Or.inr (Or.inl ⟨none, rfl⟩))
  have hask : askM env caseData game question =
      .ok (askSuccess env caseData game question raw) := by
    unfold askM
    rw [if_neg (fun hne => hne hst), hra]
  have hask' : askM (envNoContra env) caseData game question =
      .ok (askSuccess (envNoContra env) caseData game question raw) := by
    unfold askM
    rw [if_neg (fun hne => hne hst),
      show (envNoContra env).answer = env.answer from rfl, hra]
  have hsame : askSuccess env caseData game question raw =
      askSuccess (envNoContra env) caseData game question raw := by
    simp only [askSuccess]
    rw [hpre, hpre']
  refine ⟨by rw [hask, hask', hsame],
    askSuccess env caseData game question raw, hask, ?_, ?_⟩
  · rw [askSuccess_answerText, hpre]
  · rw [askSuccess_followUps, hpre]

/-- Witness for C10: the concrete environment (whose contradiction payload
has a falsy flag) yields the same `ask` result as the canonical
no-contradiction run, successfully. -/
theorem contradiction_soft_skip_witness :
    gameA.status = GStatus.PLAYING ∧
    askM envA caseA gameA qA = askM (envNoContra envA) caseA gameA qA ∧
    ∃ p, askM envA caseA gameA qA = .ok p ∧
      p.2.answerText = finalizeAnswer caseA qA gameA.languageMode
        (askPre caseA gameA.languageMode (historyOfGame gameA).length
          (strL "Alice was seen near the door.")).1 ∧
      p.2.followUpQuestions =
        (askPre caseA gameA.languageMode (historyOfGame gameA).length
          (strL "Alice was seen near the door.")).2 := by
  have h := contradiction_soft_skip envA caseA gameA qA
    (strL "Alice was seen near the door.") rfl rfl (Or.inr (Or.inl ⟨none, rfl⟩))
  exact ⟨rfl, h.1, h.2⟩

/-- `dropWhile` never lengthens a list. -/
theorem dropWhile_le_length (p : Char → Bool) (l : Str) :
    (l.dropWhile p).length ≤ l.length := by
  induction l with
  | nil => simp
  | cons c t ih =>
    rw [List.dropWhile_cons]
    by_cases hc : p c = true
    · rw [if_pos hc]
      simp only [List.length_cons]
      omega
    · rw [if_neg hc]

/-- Dropping while a predicate holds skips a block that satisfies it. -/
theorem dropWhile_append_all (p : Char → Bool) (a b : Str)
    (h : ∀ c ∈ a, p c = true) : (a ++ b).dropWhile p = b.dropWhile p := by
  induction a with
  | nil => rfl
  | cons c t ih =>
    have hc : p c = true := h c (List.mem_cons_self c t)
    simp only [List.cons_append, List.dropWhile_cons, hc, if_pos]
    exact ih (fun x hx => h x (List.mem_cons_of_mem c hx))

/-- `dropWhile` keeps a list whose head fails the predicate. -/
theorem dropWhile_cons_neg (p : Char → Bool) (c : Char) (l : Str)
    (h : p c = false) : (c :: l).dropWhile p = c :: l := by
  simp [List.dropWhile_cons, h]

/-- The head surviving `dropWhile` fails the predicate. -/
theorem dropWhile_head_false (p : Char → Bool) (l : Str) (c : Char) (t : Str)
    (h : l.dropWhile p = c :: t) : p c = false := by
  induction l with
  | nil => exact absurd h (by simp)
  | cons a l ih =>
    rw [List.dropWhile_cons] at h
    by_cases ha : p a = true
    · rw [if_pos ha] at h
      exact ih h
    · rw [if_neg ha] at h
      injection h with h1 h2
      subst h1
      exact Bool.not_eq_true _ ▸ ha

/-- A `dropWhile` result of full length is the whole list. -/
theorem dropWhile_length_eq (p : Char → Bool) (l : Str)
    (h : (l.dropWhile p).length = l.length) : l.dropWhile p = l := by
  induction l with
  | nil => rfl
  | cons c t ih =>
    rw [List.dropWhile_cons] at h ⊢
    by_cases hc : p c = true
    · rw [if_pos hc] at h ⊢
      have hle := dropWhile_le_length p t
      simp at h
      omega
    · rw [if_neg hc]

/-- `dropWhile` is idempotent. -/
theorem dropWhile_idem (p : Char → Bool) (l : Str) :
    (l.dropWhile p).dropWhile p = l.dropWhile p := by
  cases h : l.dropWhile p with
  | nil => rfl
  | cons c t => exact dropWhile_cons_neg p c t (dropWhile_head_false p l c t h)

/-- `trimLeft` skips a leading all-whitespace block. -/
theorem trimLeft_append_spaces (a b : Str) (h : ∀ c ∈ a, isPySpace c = true) :
    trimLeft (a ++ b) = trimLeft b := by
  unfold trimLeft
  exact dropWhile_append_all _ a b h

/-- `trimLeft` keeps a string starting with a non-space. -/
theorem trimLeft_cons_nonspace (c : Char) (l : Str) (h : isPySpace c = false) :
    trimLeft (c :: l) = c :: l :=
  dropWhile_cons_neg _ c l h

/-- `trimRight` ignores a trailing all-whitespace block. -/
theorem trimRight_append_spaces (l t : Str) (h : ∀ c ∈ t, isPySpace c = true) :
    trimRight (l ++ t) = trimRight l := by
  unfold trimRight
  rw [List.reverse_append]
  rw [dropWhile_append_all _ _ _ (fun c hc => h c (List.mem_reverse.mp hc))]

/-- `trimRight` keeps a string that already ends in a kept character: if a
nonempty `q` is `trimRight`-fixed then so is `x ++ q`. -/
theorem trimRight_append_fixed (x q : Str) (hq : trimRight q = q)
    (hne : q ≠ []) : trimRight (x ++ q) = x ++ q := by
  cases hr : q.reverse with
  | nil => exact absurd (by simpa using congrArg List.reverse hr) hne
  | cons c t =>
    have hfix : q.reverse.dropWhile isPySpace = q.reverse := by
      have := congrArg List.reverse hq
      unfold trimRight at this
      simpa using this
    have hc : isPySpace c = false := by
      rw [hr] at hfix
      exact dropWhile_head_false _ _ _ _ hfix
    unfold trimRight
    rw [List.reverse_append, hr, List.cons_append,
      dropWhile_cons_neg _ _ _ hc, ← List.cons_append, ← hr,
      ← List.reverse_append]
    simp

/-- A `pyStrip`-fixed string is fixed by both one-sided trims. -/
theorem pyStrip_fixed_parts (l : Str) (h : pyStrip l = l) :
    trimLeft l = l ∧ trimRight l = l := by
  have hlen1 : (trimLeft l).length ≤ l.length := dropWhile_le_length _ _
  have hlen2 : (trimRight (trimLeft l)).length ≤ (trimLeft l).length := by
    unfold trimRight
    calc ((trimLeft l).reverse.dropWhile isPySpace).reverse.length
        = ((trimLeft l).reverse.dropWhile isPySpace).length := by simp
      _ ≤ (trimLeft l).reverse.length := dropWhile_le_length _ _
      _ = (trimLeft l).length := by simp
  have hll : (pyStrip l).length = l.length := by rw [h]
  unfold pyStrip at hll
  have heq1 : (trimLeft l).length = l.length := by omega
  have htl : trimLeft l = l := dropWhile_length_eq _ _ heq1
  refine ⟨htl, ?_⟩
  have := h
  unfold pyStrip at this
  rw [htl] at this
  exact this

/-- `trimLeft` leaves a `trimRight` result alone when it left the original
alone. -/
theorem trimLeft_trimRight_fixed (l : Str) (h : trimLeft l = l) :
    trimLeft (trimRight l) = trimRight l := by
  have hpre : ∃ w, l = trimRight l ++ w := by
    refine ⟨(l.reverse.takeWhile isPySpace).reverse, ?_⟩
    unfold trimRight
    rw [← List.reverse_append, List.takeWhile_append_dropWhile]
    simp
  obtain ⟨w, hw⟩ := hpre
  cases ht : trimRight l with
  | nil => rfl
  | cons c t =>
    have hc : isPySpace c = false := by
      rw [hw, ht] at h
      have : ((c :: t) ++ w).dropWhile isPySpace = (c :: t) ++ w := h
      rw [List.cons_append, List.dropWhile_cons] at this
      by_cases hcc : isPySpace c = true
      · rw [if_pos hcc] at this
        have hle := dropWhile_le_length isPySpace (t ++ w)
        have hlen := congrArg List.length this
        simp only [List.length_cons] at hlen
        omega
      · simpa using hcc
    exact trimLeft_cons_nonspace c t hc

/-- `trimRight` is idempotent. -/
theorem trimRight_idem (l : Str) : trimRight (trimRight l) = trimRight l := by
  unfold trimRight
  simp [dropWhile_idem]

/-- `pyStrip` is idempotent. -/
theorem pyStrip_idem (l : Str) : pyStrip (pyStrip l) = pyStrip l := by
  have h1 : trimLeft (trimLeft l) = trimLeft l := dropWhile_idem _ _
  show trimRight (trimLeft (trimRight (trimLeft l))) = trimRight (trimLeft l)
  rw [trimLeft_trimRight_fixed (trimLeft l) h1, trimRight_idem]

/-- Every string is its `pyStrip` with whitespace re-attached on both
sides. -/
theorem exists_strip_decomp (s : Str) : ∃ u v, s = u ++ pyStrip s ++ v := by
  refine ⟨s.takeWhile isPySpace, ((trimLeft s).reverse.takeWhile isPySpace).reverse, ?_⟩
  unfold pyStrip trimRight trimLeft
  rw [List.append_assoc, ← List.reverse_append, List.takeWhile_append_dropWhile,
    List.reverse_reverse, List.takeWhile_append_dropWhile]

/-- The Boolean prefix test is reflexive. -/
theorem isPrefixOf_refl (l : Str) : l.isPrefixOf l = true := by
  induction l with
  | nil => rfl
  | cons c t ih => simp [List.isPrefixOf, ih]

/-- A prefix of `x` is a prefix of `x ++ y`. -/
theorem isPrefixOf_append_of (pat x y : Str) (h : pat.isPrefixOf x = true) :
    pat.isPrefixOf (x ++ y) = true := by
  induction pat generalizing x with
  | nil => simp [List.isPrefixOf]
  | cons c pt ih =>
    cases x with
    | nil => exact absurd h (by simp [List.isPrefixOf])
    | cons a t =>
      simp only [List.isPrefixOf, Bool.and_eq_true] at h
      simp only [List.cons_append, List.isPrefixOf, Bool.and_eq_true]
      exact ⟨h.1, ih t h.2⟩

/-- `findSub` reports index 0 when the pattern is a prefix. -/
theorem findSub_eq_zero_of_isPrefixOf (pat s : Str)
    (h : pat.isPrefixOf s = true) : findSub pat s = some 0 := by
  cases s with
  | nil => simp [findSub, h]
  | cons c t => simp [findSub, h]

/-- Sliding a pattern search over a block that does not contain the
pattern's first character shifts the found index by the block length. -/
theorem findSub_append_head_notMem (c : Char) (pt pre s : Str) (h : c ∉ pre) :
    findSub (c :: pt) (pre ++ s) = (findSub (c :: pt) s).map (· + pre.length) := by
  induction pre with
  | nil =>
    simp only [List.nil_append, List.length_nil]
    cases hf : findSub (c :: pt) s <;> simp
  | cons a pre ih =>
    have hca : (c == a) = false := by
      have : c ≠ a := fun he => h (he ▸ List.mem_cons_self a pre)
      exact beq_eq_false_iff_ne.mpr this
    have hpre : (c :: pt).isPrefixOf (a :: (pre ++ s)) = false := by
      simp only [List.isPrefixOf, hca, Bool.false_and]
    rw [show (a :: pre) ++ s = a :: (pre ++ s) from rfl]
    show (if (c :: pt).isPrefixOf (a :: (pre ++ s)) = true then some 0
          else (findSub (c :: pt) (pre ++ s)).map (· + 1)) = _
    rw [if_neg (by rw [hpre]; exact Bool.false_ne_true)]
    rw [ih (fun hm => h (List.mem_cons_of_mem a hm))]
    cases hf : findSub (c :: pt) s with
    | none => rfl
    | some k =>
      simp only [Option.map_some', List.length_cons]
      rfl

/-- `findSub` fails exactly when the pattern occurs nowhere. -/
theorem findSub_eq_none_iff (pat s : Str) :
    findSub pat s = none ↔ ∀ i, ¬ occursAt pat s i := by
  induction s with
  | nil =>
    constructor
    · intro h i hocc
      unfold occursAt at hocc
      rw [List.drop_nil] at hocc
      simp only [findSub] at h
      rw [if_pos hocc] at h
      exact Option.noConfusion h
    · intro h
      simp only [findSub]
      rw [if_neg]
      intro hp
      exact h 0 (by simpa [occursAt] using hp)
  | cons c t ih =>
    constructor
    · intro h i
      simp only [findSub] at h
      by_cases hp : pat.isPrefixOf (c :: t) = true
      · rw [if_pos hp] at h
        exact Option.noConfusion h
      · rw [if_neg hp] at h
        have ht : findSub pat t = none := by
          cases hf : findSub pat t with
          | none => rfl
          | some k => rw [hf] at h; exact Option.noConfusion h
        cases i with
        | zero => exact fun hocc => hp (by simpa [occursAt] using hocc)
        | succ j =>
          intro hocc
          exact (ih.mp ht) j (by simpa [occursAt] using hocc)
    · intro h
      simp only [findSub]
      rw [if_neg (fun hp => h 0 (by simpa [occursAt] using hp))]
      have ht : findSub pat t = none :=
        ih.mpr (fun j hocc => h (j + 1) (by simpa [occursAt] using hocc))
      rw [ht]
      rfl

/-- `findSub` returns the first occurrence: it occurs there, and nowhere
earlier. -/
theorem findSub_eq_some_first (pat s : Str) (p : Nat)
    (h : findSub pat s = some p) :
    occursAt pat s p ∧ ∀ j, j < p → ¬ occursAt pat s j := by
  induction s generalizing p with
  | nil =>
    simp only [findSub] at h
    by_cases hp : pat.isPrefixOf ([] : Str) = true
    · rw [if_pos hp] at h
      injection h with h0
      subst h0
      exact ⟨by simpa [occursAt] using hp, fun j hj => by omega⟩
    · rw [if_neg hp] at h
      exact Option.noConfusion h
  | cons c t ih =>
    simp only [findSub] at h
    by_cases hp : pat.isPrefixOf (c :: t) = true
    · rw [if_pos hp] at h
      injection h with h0
      subst h0
      exact ⟨by simpa [occursAt] using hp, fun j hj => by omega⟩
    · rw [if_neg hp] at h
      cases hf : findSub pat t with
      | none => rw [hf] at h; exact Option.noConfusion h
      | some k =>
        rw [hf] at h
        injection h with h0
        have h0' : k + 1 = p := h0
        subst h0'
        obtain ⟨hocc, hmin⟩ := ih k hf
        refine ⟨by simpa [occursAt] using hocc, ?_⟩
        intro j hj
        cases j with
        | zero => exact fun hocc0 => hp (by simpa [occursAt] using hocc0)
        | succ j' =>
          intro hocc'
          exact hmin j' (by omega) (by simpa [occursAt] using hocc')

/-- An occurrence inside a dropped suffix is an occurrence in the whole. -/
theorem occursAt_drop (pat s : Str) (a k : Nat) :
    occursAt pat (s.drop a) k ↔ occursAt pat s (a + k) := by
  unfold occursAt
  rw [List.drop_drop]

/-- An occurrence in the middle section survives embedding between two
outer sections. -/
theorem occursAt_embed (pat u m v : Str) (i : Nat) (h : occursAt pat m i) :
    occursAt pat (u ++ m ++ v) (u.length + i) := by
  unfold occursAt at h ⊢
  rw [List.append_assoc, List.drop_append_eq_append_drop]
  have h1 : u.drop (u.length + i) = [] := by
    apply List.drop_eq_nil_of_le
    omega
  rw [h1, List.nil_append]
  have h2 : u.length + i - u.length = i := by omega
  rw [h2, List.drop_append_eq_append_drop]
  exact isPrefixOf_append_of _ _ _ h

/-- Decoding a text assembled as `bodyPre ++ OPEN ++ mid ++ CLOSE`, where
neither `bodyPre` nor `mid` contains a `<` (so neither can contain a tag),
strips the block: the body is `bodyPre` stripped, and the questions are the
normalized nonempty stripped lines of the stripped `mid`. -/
theorem splitFollowUp_assembled (bodyPre mid : Str) (mode : LangMode) (wd : Bool)
    (hb : '<' ∉ bodyPre) (hm : '<' ∉ mid) :
    splitFollowUp (bodyPre ++ (followUpOpenTag ++ (mid ++ followUpCloseTag)))
        mode wd =
      (pyStrip bodyPre,
       normalizeFollowUpQuestions
         (((splitLinesPy (pyStrip mid)).map pyStrip).filter (fun l => !l.isEmpty))
         mode wd) := by
  have hopen : followUpOpenTag = '<' :: strL "FOLLOW_UP_QUESTIONS>" := rfl
  have hclose : followUpCloseTag = '<' :: strL "/FOLLOW_UP_QUESTIONS>" := rfl
  set E := bodyPre ++ (followUpOpenTag ++ (mid ++ followUpCloseTag)) with hE
  have hfo : findSub followUpOpenTag E = some bodyPre.length := by
    have h1 := findSub_append_head_notMem '<' (strL "FOLLOW_UP_QUESTIONS>")
      bodyPre (followUpOpenTag ++ (mid ++ followUpCloseTag)) hb
    rw [← hopen] at h1
    rw [hE, h1, findSub_eq_zero_of_isPrefixOf _ _
      (isPrefixOf_append_of _ _ _ (isPrefixOf_refl followUpOpenTag))]
    simp
  have hdrop : E.drop (bodyPre.length + followUpOpenTag.length) =
      mid ++ followUpCloseTag := by
    rw [hE, ← List.append_assoc]
    exact List.drop_left' (by simp)
  have hfc : findSub followUpCloseTag (mid ++ followUpCloseTag) =
      some mid.length := by
    have h1 := findSub_append_head_notMem '<' (strL "/FOLLOW_UP_QUESTIONS>")
      mid followUpCloseTag hm
    rw [← hclose] at h1
    rw [h1, findSub_eq_zero_of_isPrefixOf _ _ (isPrefixOf_refl _)]
    simp
  have hsearch : searchBlock E =
      some (bodyPre.length,
        bodyPre.length + followUpOpenTag.length + mid.length) := by
    unfold searchBlock
    simp only [hfo, hdrop, hfc]
  have harith : bodyPre.length + followUpOpenTag.length + mid.length -
      (bodyPre.length + followUpOpenTag.length) = mid.length := by omega
  have htake : E.take bodyPre.length = bodyPre := by
    rw [hE]
    exact List.take_left _ _
  have hlenE : E.length = bodyPre.length + followUpOpenTag.length +
      mid.length + followUpCloseTag.length := by
    rw [hE]
    simp [List.length_append]
    omega
  have hdropEnd : E.drop (bodyPre.length + followUpOpenTag.length +
      mid.length + followUpCloseTag.length) = [] := by
    rw [← hlenE]
    exact List.drop_length E
  have hinner : (E.drop (bodyPre.length + followUpOpenTag.length)).take
      (bodyPre.length + followUpOpenTag.length + mid.length -
        (bodyPre.length + followUpOpenTag.length)) = mid := by
    rw [harith, hdrop]
    exact List.take_left _ _
  unfold splitFollowUp
  simp only [hsearch, hinner, htake, hdropEnd, List.append_nil]

/-- `slGo` shovels a line-break-free block into the accumulator. -/
theorem slGo_append_nolb (l : Str) (h : ∀ c ∈ l, isLineBreak c = false) :
    ∀ (s acc : Str), slGo (l ++ s) acc = slGo s (l.reverse ++ acc) := by
  induction l with
  | nil => intro s acc; simp
  | cons c t ih =>
    intro s acc
    have hc : isLineBreak c = false := h c (List.mem_cons_self c t)
    show slGo (c :: (t ++ s)) acc = _
    simp only [slGo, hc, Bool.false_eq_true, if_false]
    rw [ih (fun x hx => h x (List.mem_cons_of_mem c hx)) s (c :: acc)]
    congr 1
    simp

/-- `slGo` closes the current line at a `\n`. -/
theorem slGo_nl (t acc : Str) : slGo ('\n' :: t) acc = acc.reverse :: slGo t [] := by
  simp only [slGo]
  rw [if_pos (show isLineBreak '\n' = true from rfl)]
  rw [if_neg (show ¬('\n' = '\r') from by decide)]

/-- Splitting the `\n`-join of nonempty line-break-free lines restores the
lines. -/
theorem splitLinesPy_joinNL (ls : List Str)
    (h : ∀ l ∈ ls, l ≠ [] ∧ ∀ c ∈ l, isLineBreak c = false) (hne : ls ≠ []) :
    splitLinesPy (joinNL ls) = ls := by
  induction ls with
  | nil => exact absurd rfl hne
  | cons l t ih =>
    obtain ⟨hl, hlb⟩ := h l (List.mem_cons_self l t)
    cases t with
    | nil =>
      show splitLinesPy l = [l]
      unfold splitLinesPy
      have hsl := slGo_append_nolb l hlb [] []
      rw [List.append_nil] at hsl
      rw [hsl]
      simp only [slGo, List.append_nil]
      rw [if_neg]
      · simp
      · simp [hl]
    | cons l2 t2 =>
      show splitLinesPy (l ++ '\n' :: joinNL (l2 :: t2)) = l :: l2 :: t2
      unfold splitLinesPy
      rw [slGo_append_nolb l hlb _ [], List.append_nil, slGo_nl,
        List.reverse_reverse]
      congr 1
      exact ih (fun x hx => h x (List.mem_cons_of_mem l hx)) (by simp)

/-- The cleaning loop maps related lines to their questions, preserving
order, when the questions are distinct and at most three fit. -/
theorem nqGo_rel : ∀ (ls qs acc : List Str),
    List.Forall₂ NormPair ls qs → qs.Nodup → (∀ q ∈ qs, q ∉ acc) →
    acc.length + qs.length ≤ 3 → nqGo ls acc = acc ++ qs := by
  intro ls
  induction ls with
  | nil =>
    intro qs acc hrel _ _ _
    cases hrel
    simp [nqGo]
  | cons l lt ih =>
    intro qs acc hrel hnd hnotin hlen
    cases hrel with
    | cons hpair hrest =>
      rename_i q qt
      obtain ⟨hps, hsq, hsc, hlne, hqne⟩ := hpair
      have hle : l.isEmpty = false := by
        cases l
        · exact absurd rfl hlne
        · rfl
      have hqe : q.isEmpty = false := by
        cases q
        · exact absurd rfl hqne
        · rfl
      simp only [nqGo]
      rw [if_neg (by simp only [List.length_cons] at hlen; omega)]
      rw [hps, hle]
      rw [if_neg (by exact Bool.false_ne_true)]
      rw [hsq, hsc, hqe]
      rw [if_neg (by exact Bool.false_ne_true)]
      rw [if_neg (hnotin q (List.mem_cons_self q qt))]
      rw [ih qt (acc ++ [q]) hrest (List.Nodup.of_cons hnd) ?_ ?_]
      · rw [List.append_assoc]
        rfl
      · intro q' hq'
        rw [List.mem_append]
        rintro (hin | hin)
        · exact hnotin q' (List.mem_cons_of_mem q hq') hin
        · have : q' = q := by simpa using hin
          subst this
          exact (List.nodup_cons.mp hnd).1 hq'
      · simp only [List.length_append, List.length_cons] at hlen ⊢
        simp
        omega

/-- Normalization with defaults disabled maps related lines to their
(distinct, at most three) questions. -/
theorem normalize_rel (ls qs : List Str) (mode : LangMode)
    (hrel : List.Forall₂ NormPair ls qs) (hnd : qs.Nodup)
    (hlen : qs.length ≤ 3) :
    normalizeFollowUpQuestions ls mode false = qs := by
  unfold normalizeFollowUpQuestions
  rw [nqGo_rel ls qs [] hrel hnd (by simp) (by simpa using hlen)]
  rw [List.nil_append]
  exact List.take_of_length_le hlen

/-- Stripping the `Qn:` numbering from a line `Q<d>: q` recovers `q` when
`q` carries no leading whitespace. -/
theorem stripQNum_line (d : Char) (q : Str) (hd : d.isDigit = true)
    (hds : isPySpace d = false) (hq : trimLeft q = q) :
    stripQNum ('Q' :: d :: ':' :: ' ' :: q) = q := by
  have hq' : q.dropWhile isPySpace = q := hq
  have e1 : (d :: ':' :: ' ' :: q).dropWhile isPySpace = d :: ':' :: ' ' :: q :=
    dropWhile_cons_neg _ _ _ hds
  have e2 : (d :: ':' :: ' ' :: q).takeWhile Char.isDigit = [d] := by
    rw [List.takeWhile_cons, if_pos hd, List.takeWhile_cons,
      if_neg (by decide)]
  have e3 : (d :: ':' :: ' ' :: q).dropWhile Char.isDigit = ':' :: ' ' :: q := by
    rw [List.dropWhile_cons, if_pos hd,
      dropWhile_cons_neg _ _ _ (show Char.isDigit ':' = false from rfl)]
  have e4 : (':' :: ' ' :: q).dropWhile isPySpace = ':' :: ' ' :: q :=
    dropWhile_cons_neg _ _ _ (by decide)
  simp only [stripQNum]
  rw [if_pos (by decide)]
  simp only [parseNumSep, e1, e2, e3, e4]
  rw [if_neg (show ¬([d] : Str).isEmpty = true from by simp)]
  rw [if_pos (show ':' ∈ qNumSeps from by decide)]
  show ((' ' :: q).dropWhile isPySpace) = q
  rw [List.dropWhile_cons, if_pos (by decide), hq']

/-- `pyStrip` of a fixed nonempty body with a trailing `"\n\n"` gives the
body back. -/
theorem pyStrip_body_nl (body : Str) (hb : pyStrip body = body)
    (hne : body ≠ []) : pyStrip (body ++ ['\n', '\n']) = body := by
  obtain ⟨htl, htr⟩ := pyStrip_fixed_parts body hb
  cases body with
  | nil => exact absurd rfl hne
  | cons c t =>
    have hc : isPySpace c = false := by
      have := htl
      unfold trimLeft at this
      exact dropWhile_head_false _ _ _ _ this
    show trimRight (trimLeft ((c :: t) ++ ['\n', '\n'])) = c :: t
    rw [List.cons_append, trimLeft_cons_nonspace _ _ hc, ← List.cons_append]
    rw [trimRight_append_spaces _ _ (by decide)]
    exact htr

/-- `pyStrip` of a line block `"\n" ++ J ++ "\n"` with `J` trim-fixed and
nonempty gives `J` back. -/
theorem pyStrip_block (J : Str) (h1 : trimLeft J = J) (h2 : trimRight J = J)
    (hne : J ≠ []) : pyStrip ('\n' :: (J ++ ['\n'])) = J := by
  cases J with
  | nil => exact absurd rfl hne
  | cons c t =>
    have hc : isPySpace c = false := by
      have := h1
      unfold trimLeft at this
      exact dropWhile_head_false _ _ _ _ this
    show trimRight (trimLeft ('\n' :: ((c :: t) ++ ['\n']))) = c :: t
    have hstep : trimLeft ('\n' :: ((c :: t) ++ ['\n'])) =
        trimLeft ((c :: t) ++ ['\n']) := by
      unfold trimLeft
      rw [List.dropWhile_cons, if_pos (by decide)]
    rw [hstep, List.cons_append, trimLeft_cons_nonspace _ _ hc,
      ← List.cons_append, trimRight_append_spaces _ _ (by decide)]
    exact h2

/-- Mapping a function that fixes every element is the identity. -/
theorem map_self (f : Str → Str) (l : List Str) (h : ∀ x ∈ l, f x = x) :
    l.map f = l := by
  induction l with
  | nil => rfl
  | cons a t ih =>
    rw [List.map_cons, h a (List.mem_cons_self a t),
      ih (fun x hx => h x (List.mem_cons_of_mem a hx))]

/-- Filtering keeps a list all of whose elements pass. -/
theorem filter_all (p : Str → Bool) (l : List Str) (h : ∀ x ∈ l, p x = true) :
    l.filter p = l := by
  induction l with
  | nil => rfl
  | cons a t ih =>
    rw [List.filter_cons, if_pos (h a (List.mem_cons_self a t)),
      ih (fun x hx => h x (List.mem_cons_of_mem a hx))]

/-- All the facts needed about one rendered follow-up line `Q<d>: q`. -/
theorem qLine_facts (d : Char) (q : Str) (hd : d.isDigit = true)
    (hdsp : isPySpace d = false)
    (hq : pyStrip q = q) (hsc : stripChars bulletChars q = q)
    (hne : q ≠ []) :
    trimLeft ('Q' :: d :: ':' :: ' ' :: q) = 'Q' :: d :: ':' :: ' ' :: q ∧
    trimRight ('Q' :: d :: ':' :: ' ' :: q) = 'Q' :: d :: ':' :: ' ' :: q ∧
    pyStrip ('Q' :: d :: ':' :: ' ' :: q) = 'Q' :: d :: ':' :: ' ' :: q ∧
    NormPair ('Q' :: d :: ':' :: ' ' :: q) q := by
  obtain ⟨htl, htr⟩ := pyStrip_fixed_parts q hq
  have h1 : trimLeft ('Q' :: d :: ':' :: ' ' :: q) = 'Q' :: d :: ':' :: ' ' :: q :=
    trimLeft_cons_nonspace _ _ (by decide)
  have h2 : trimRight ('Q' :: d :: ':' :: ' ' :: q) = 'Q' :: d :: ':' :: ' ' :: q :=
    trimRight_append_fixed ['Q', d, ':', ' '] q htr hne
  have h3 : pyStrip ('Q' :: d :: ':' :: ' ' :: q) = 'Q' :: d :: ':' :: ' ' :: q := by
    unfold pyStrip
    rw [h1, h2]
  exact ⟨h1, h2, h3,
    ⟨h3, stripQNum_line d q hd hdsp htl, hsc, by simp, hne⟩⟩

/-- Decoding the assembled message `body\n\nOPEN\n<lines>\nCLOSE` recovers
the body and the questions the lines normalize to. -/
theorem decode_mid (body : Str) (ls qs : List Str) (mode : LangMode)
    (hb : pyStrip body = body) (hbne : body ≠ []) (hblt : '<' ∉ body)
    (hlsne : ls ≠ [])
    (hclean : ∀ l ∈ ls, l ≠ [] ∧ ∀ c ∈ l, isLineBreak c = false)
    (hlt : '<' ∉ joinNL ls)
    (htl : trimLeft (joinNL ls) = joinNL ls)
    (htr : trimRight (joinNL ls) = joinNL ls)
    (hstrip : ∀ l ∈ ls, pyStrip l = l)
    (hrel : List.Forall₂ NormPair ls qs) (hnd : qs.Nodup)
    (hqlen : qs.length ≤ 3) :
    splitFollowUp ((body ++ ['\n', '\n']) ++
        (followUpOpenTag ++ (('\n' :: (joinNL ls ++ ['\n'])) ++
          followUpCloseTag))) mode false = (body, qs) := by
  have hJne : joinNL ls ≠ [] := by
    cases ls with
    | nil => exact absurd rfl hlsne
    | cons l t =>
      have hl := (hclean l (List.mem_cons_self l t)).1
      cases t with
      | nil => exact hl
      | cons l2 t2 =>
        show l ++ '\n' :: joinNL (l2 :: t2) ≠ []
        simp
  have hbp : '<' ∉ body ++ ['\n', '\n'] := by
    simp only [List.mem_append, List.mem_cons]
    rintro (h | h | h | h)
    · exact hblt h
    · exact absurd h (by decide)
    · exact absurd h (by decide)
    · exact absurd h (by simp)
  have hmp : '<' ∉ '\n' :: (joinNL ls ++ ['\n']) := by
    simp only [List.mem_cons, List.mem_append]
    rintro (h | h | h | h)
    · exact absurd h (by decide)
    · exact hlt h
    · exact absurd h (by decide)
    · exact absurd h (by simp)
  rw [splitFollowUp_assembled _ _ _ _ hbp hmp]
  rw [pyStrip_body_nl body hb hbne]
  rw [pyStrip_block (joinNL ls) htl htr hJne]
  rw [splitLinesPy_joinNL ls hclean hlsne]
  rw [map_self pyStrip ls hstrip]
  rw [filter_all _ ls ?_]
  · rw [normalize_rel ls qs mode hrel hnd hqlen]
  · intro x hx
    have hxne := (hclean x hx).1
    cases x with
    | nil => exact absurd rfl hxne
    | cons c t => rfl

/-- Encoded form of a block with no questions. -/
theorem append_shape0 (body : Str) (mode : LangMode)
    (hb : pyStrip body = body) (hbne : body ≠ []) :
    appendFollowUpBlock body [] mode =
      (body ++ ['\n', '\n']) ++
        (followUpOpenTag ++ ((['\n'] : Str) ++ followUpCloseTag)) := by
  simp only [appendFollowUpBlock]
  rw [hb]
  have hbe : ¬body.isEmpty = true := by
    cases body
    · exact absurd rfl hbne
    · simp
  rw [if_neg hbe]
  show joinNL [body, [], followUpOpenTag, followUpCloseTag] = _
  simp [joinNL, List.append_assoc]

/-- Encoded form of a block with one normalized question. -/
theorem append_shape1 (body q1 : Str) (mode : LangMode)
    (hb : pyStrip body = body) (hbne : body ≠ [])
    (hnorm : normalizeFollowUpQuestions [q1] mode false = [q1]) :
    appendFollowUpBlock body [q1] mode =
      (body ++ ['\n', '\n']) ++ (followUpOpenTag ++
        (('\n' :: (joinNL ['Q' :: '1' :: ':' :: ' ' :: q1] ++ ['\n'])) ++
          followUpCloseTag)) := by
  simp only [appendFollowUpBlock]
  rw [hnorm, hb]
  have hbe : ¬body.isEmpty = true := by
    cases body
    · exact absurd rfl hbne
    · simp
  rw [if_neg hbe]
  show joinNL [body, [], followUpOpenTag,
      strL "Q" ++ Nat.toDigits 10 1 ++ strL ": " ++ q1, followUpCloseTag] = _
  rw [show Nat.toDigits 10 1 = ['1'] from rfl]
  show joinNL [body, [], followUpOpenTag,
      'Q' :: '1' :: ':' :: ' ' :: q1, followUpCloseTag] = _
  simp [joinNL, List.append_assoc]

/-- Encoded form of a block with two normalized questions. -/
theorem append_shape2 (body q1 q2 : Str) (mode : LangMode)
    (hb : pyStrip body = body) (hbne : body ≠ [])
    (hnorm : normalizeFollowUpQuestions [q1, q2] mode false = [q1, q2]) :
    appendFollowUpBlock body [q1, q2] mode =
      (body ++ ['\n', '\n']) ++ (followUpOpenTag ++
        (('\n' :: (joinNL ['Q' :: '1' :: ':' :: ' ' :: q1,
            'Q' :: '2' :: ':' :: ' ' :: q2] ++ ['\n'])) ++
          followUpCloseTag)) := by
  simp only [appendFollowUpBlock]
  rw [hnorm, hb]
  have hbe : ¬body.isEmpty = true := by
    cases body
    · exact absurd rfl hbne
    · simp
  rw [if_neg hbe]
  show joinNL [body, [], followUpOpenTag,
      strL "Q" ++ Nat.toDigits 10 1 ++ strL ": " ++ q1,
      strL "Q" ++ Nat.toDigits 10 2 ++ strL ": " ++ q2, followUpCloseTag] = _
  rw [show Nat.toDigits 10 1 = ['1'] from rfl,
    show Nat.toDigits 10 2 = ['2'] from rfl]
  show joinNL [body, [], followUpOpenTag,
      'Q' :: '1' :: ':' :: ' ' :: q1,
      'Q' :: '2' :: ':' :: ' ' :: q2, followUpCloseTag] = _
  simp [joinNL, List.append_assoc]

/-- Encoded form of a block with three normalized questions. -/
theorem append_shape3 (body q1 q2 q3 : Str) (mode : LangMode)
    (hb : pyStrip body = body) (hbne : body ≠ [])
    (hnorm : normalizeFollowUpQuestions [q1, q2, q3] mode false = [q1, q2, q3]) :
    appendFollowUpBlock body [q1, q2, q3] mode =
      (body ++ ['\n', '\n']) ++ (followUpOpenTag ++
        (('\n' :: (joinNL ['Q' :: '1' :: ':' :: ' ' :: q1,
            'Q' :: '2' :: ':' :: ' ' :: q2,
            'Q' :: '3' :: ':' :: ' ' :: q3] ++ ['\n'])) ++
          followUpCloseTag)) := by
  simp only [appendFollowUpBlock]
  rw [hnorm, hb]
  have hbe : ¬body.isEmpty = true := by
    cases body
    · exact absurd rfl hbne
    · simp
  rw [if_neg hbe]
  show joinNL [body, [], followUpOpenTag,
      strL "Q" ++ Nat.toDigits 10 1 ++ strL ": " ++ q1,
      strL "Q" ++ Nat.toDigits 10 2 ++ strL ": " ++ q2,
      strL "Q" ++ Nat.toDigits 10 3 ++ strL ": " ++ q3, followUpCloseTag] = _
  rw [show Nat.toDigits 10 1 = ['1'] from rfl,
    show Nat.toDigits 10 2 = ['2'] from rfl,
    show Nat.toDigits 10 3 = ['3'] from rfl]
  show joinNL [body, [], followUpOpenTag,
      'Q' :: '1' :: ':' :: ' ' :: q1,
      'Q' :: '2' :: ':' :: ' ' :: q2,
      'Q' :: '3' :: ':' :: ' ' :: q3, followUpCloseTag] = _
  simp [joinNL, List.append_assoc]

/-- C4 amended: encode–decode round trip.  For a body that is whitespace-
stripped, nonempty and free of `<` (so it cannot contain a protocol tag),
and for 0–3 pairwise-distinct questions already in normal form
(`CleanQuestion`), decoding the encoding with defaults disabled restores
the body exactly and returns the same questions in the same order.  (The
counterexample shows the unrestricted claim fails: an empty body is
replaced by a placeholder, edge whitespace is stripped, and `Qn:`-style or
tag-containing texts are rewritten.) -/
theorem follow_up_round_trip (body : Str) (qs : List Str) (mode : LangMode)
    (hb : pyStrip body = body) (hbne : body ≠ []) (hblt : '<' ∉ body)
    (hlen : qs.length ≤ 3) (hnd : qs.Nodup)
    (hq : ∀ q ∈ qs, CleanQuestion q) :
    splitFollowUp (appendFollowUpBlock body qs mode) mode false = (body, qs) := by
  rcases qs with _ | ⟨q1, _ | ⟨q2, _ | ⟨q3, _ | ⟨q4, t⟩⟩⟩⟩
  · -- no questions
    rw [append_shape0 body mode hb hbne]
    have hbp : '<' ∉ body ++ ['\n', '\n'] := by
      simp only [List.mem_append, List.mem_cons]
      rintro (h | h | h | h)
      · exact hblt h
      · exact absurd h (by decide)
      · exact absurd h (by decide)
      · exact absurd h (by simp)
    rw [splitFollowUp_assembled _ _ _ _ hbp (by decide)]
    rw [pyStrip_body_nl body hb hbne]
    have h2 : List.filter (fun l => !List.isEmpty l)
        (List.map pyStrip (splitLinesPy (pyStrip ['\n']))) = ([] : List Str) := by
      show List.filter (fun l => !List.isEmpty l)
        (List.map pyStrip (splitLinesPy [])) = []
      simp only [splitLinesPy, slGo]
      rfl
    rw [h2]
    rfl
  · -- one question
    obtain ⟨hps1, hsq1, hsc1, hne1, hlt1, hlb1⟩ := hq q1 (by simp)
    obtain ⟨htl1, htr1, hstrip1, hnp1⟩ :=
      qLine_facts '1' q1 (by decide) (by decide) hps1 hsc1 hne1
    have hnorm : normalizeFollowUpQuestions [q1] mode false = [q1] :=
      normalize_rel [q1] [q1] mode
        (List.Forall₂.cons ⟨hps1, hsq1, hsc1, hne1, hne1⟩ List.Forall₂.nil)
        (List.nodup_singleton q1) (by simp)
    rw [append_shape1 body q1 mode hb hbne hnorm]
    apply decode_mid body ['Q' :: '1' :: ':' :: ' ' :: q1] [q1] mode hb hbne hblt
    · simp
    · intro l hl
      simp only [List.mem_singleton] at hl
      subst hl
      refine ⟨by simp, ?_⟩
      intro c hc
      simp only [List.mem_cons] at hc
      rcases hc with rfl | rfl | rfl | rfl | hc
      · decide
      · decide
      · decide
      · decide
      · exact hlb1 c hc
    · show '<' ∉ 'Q' :: '1' :: ':' :: ' ' :: q1
      simp only [List.mem_cons]
      rintro (h | h | h | h | h)
      · exact absurd h (by decide)
      · exact absurd h (by decide)
      · exact absurd h (by decide)
      · exact absurd h (by decide)
      · exact hlt1 h
    · exact htl1
    · exact htr1
    · intro l hl
      simp only [List.mem_singleton] at hl
      subst hl
      exact hstrip1
    · exact List.Forall₂.cons hnp1 List.Forall₂.nil
    · exact hnd
    · simp
  · -- two questions
    obtain ⟨hps1, hsq1, hsc1, hne1, hlt1, hlb1⟩ := hq q1 (by simp)
    obtain ⟨hps2, hsq2, hsc2, hne2, hlt2, hlb2⟩ := hq q2 (by simp)
    obtain ⟨htl1, htr1, hstrip1, hnp1⟩ :=
      qLine_facts '1' q1 (by decide) (by decide) hps1 hsc1 hne1
    obtain ⟨htl2, htr2, hstrip2, hnp2⟩ :=
      qLine_facts '2' q2 (by decide) (by decide) hps2 hsc2 hne2
    have hnorm : normalizeFollowUpQuestions [q1, q2] mode false = [q1, q2] :=
      normalize_rel [q1, q2] [q1, q2] mode
        (List.Forall₂.cons ⟨hps1, hsq1, hsc1, hne1, hne1⟩
          (List.Forall₂.cons ⟨hps2, hsq2, hsc2, hne2, hne2⟩ List.Forall₂.nil))
        hnd (by simp)
    rw [append_shape2 body q1 q2 mode hb hbne hnorm]
    have hJ : joinNL ['Q' :: '1' :: ':' :: ' ' :: q1,
        'Q' :: '2' :: ':' :: ' ' :: q2] =
        (('Q' :: '1' :: ':' :: ' ' :: q1) ++ ['\n']) ++
          ('Q' :: '2' :: ':' :: ' ' :: q2) := by
      show ('Q' :: '1' :: ':' :: ' ' :: q1) ++
          '\n' :: ('Q' :: '2' :: ':' :: ' ' :: q2) = _
      simp [List.append_assoc]
    apply decode_mid body ['Q' :: '1' :: ':' :: ' ' :: q1,
      'Q' :: '2' :: ':' :: ' ' :: q2] [q1, q2] mode hb hbne hblt
    · simp
    · intro l hl
      simp only [List.mem_cons, List.mem_singleton] at hl
      rcases hl with rfl | rfl | hl
      · refine ⟨by simp, ?_⟩
        intro c hc
        simp only [List.mem_cons] at hc
        rcases hc with rfl | rfl | rfl | rfl | hc
        · decide
        · decide
        · decide
        · decide
        · exact hlb1 c hc
      · refine ⟨by simp, ?_⟩
        intro c hc
        simp only [List.mem_cons] at hc
        rcases hc with rfl | rfl | rfl | rfl | hc
        · decide
        · decide
        · decide
        · decide
        · exact hlb2 c hc
      · exact absurd hl (by simp)
    · rw [hJ]
      intro h
      rcases List.mem_append.mp h with h | h
      · rcases List.mem_append.mp h with h | h
        · simp only [List.mem_cons] at h
          rcases h with h | h | h | h | h
          · exact absurd h (by decide)
          · exact absurd h (by decide)
          · exact absurd h (by decide)
          · exact absurd h (by decide)
          · exact hlt1 h
        · exact absurd h (by decide)
      · simp only [List.mem_cons] at h
        rcases h with h | h | h | h | h
        · exact absurd h (by decide)
        · exact absurd h (by decide)
        · exact absurd h (by decide)
        · exact absurd h (by decide)
        · exact hlt2 h
    · show trimLeft (('Q' :: '1' :: ':' :: ' ' :: q1) ++
        '\n' :: ('Q' :: '2' :: ':' :: ' ' :: q2)) = _
      exact trimLeft_cons_nonspace _ _ (by decide)
    · rw [hJ]
      exact trimRight_append_fixed _ _ htr2 (by simp)
    · intro l hl
      simp only [List.mem_cons, List.mem_singleton] at hl
      rcases hl with rfl | rfl | hl
      · exact hstrip1
      · exact hstrip2
      · exact absurd hl (by simp)
    · exact List.Forall₂.cons hnp1 (List.Forall₂.cons hnp2 List.Forall₂.nil)
    · exact hnd
    · simp
  · -- three questions
    obtain ⟨hps1, hsq1, hsc1, hne1, hlt1, hlb1⟩ := hq q1 (by simp)
    obtain ⟨hps2, hsq2, hsc2, hne2, hlt2, hlb2⟩ := hq q2 (by simp)
    obtain ⟨hps3, hsq3, hsc3, hne3, hlt3, hlb3⟩ := hq q3 (by simp)
    obtain ⟨htl1, htr1, hstrip1, hnp1⟩ :=
      qLine_facts '1' q1 (by decide) (by decide) hps1 hsc1 hne1
    obtain ⟨htl2, htr2, hstrip2, hnp2⟩ :=
      qLine_facts '2' q2 (by decide) (by decide) hps2 hsc2 hne2
    obtain ⟨htl3, htr3, hstrip3, hnp3⟩ :=
      qLine_facts '3' q3 (by decide) (by decide) hps3 hsc3 hne3
    have hnorm : normalizeFollowUpQuestions [q1, q2, q3] mode false =
        [q1, q2, q3] :=
      normalize_rel [q1, q2, q3] [q1, q2, q3] mode
        (List.Forall₂.cons ⟨hps1, hsq1, hsc1, hne1, hne1⟩
          (List.Forall₂.cons ⟨hps2, hsq2, hsc2, hne2, hne2⟩
            (List.Forall₂.cons ⟨hps3, hsq3, hsc3, hne3, hne3⟩
              List.Forall₂.nil)))
        hnd (by simp)
    rw [append_shape3 body q1 q2 q3 mode hb hbne hnorm]
    have hJ : joinNL ['Q' :: '1' :: ':' :: ' ' :: q1,
        'Q' :: '2' :: ':' :: ' ' :: q2, 'Q' :: '3' :: ':' :: ' ' :: q3] =
        ((('Q' :: '1' :: ':' :: ' ' :: q1) ++ ['\n'] ++
          (('Q' :: '2' :: ':' :: ' ' :: q2) ++ ['\n'])) ++
          ('Q' :: '3' :: ':' :: ' ' :: q3)) := by
      show ('Q' :: '1' :: ':' :: ' ' :: q1) ++
          '\n' :: (('Q' :: '2' :: ':' :: ' ' :: q2) ++
            '\n' :: ('Q' :: '3' :: ':' :: ' ' :: q3)) = _
      simp [List.append_assoc]
    apply decode_mid body ['Q' :: '1' :: ':' :: ' ' :: q1,
      'Q' :: '2' :: ':' :: ' ' :: q2, 'Q' :: '3' :: ':' :: ' ' :: q3]
      [q1, q2, q3] mode hb hbne hblt
    · simp
    · intro l hl
      simp only [List.mem_cons, List.mem_singleton] at hl
      rcases hl with rfl | rfl | rfl | hl
      · refine ⟨by simp, ?_⟩
        intro c hc
        simp only [List.mem_cons] at hc
        rcases hc with rfl | rfl | rfl | rfl | hc
        · decide
        · decide
        · decide
        · decide
        · exact hlb1 c hc
      · refine ⟨by simp, ?_⟩
        intro c hc
        simp only [List.mem_cons] at hc
        rcases hc with rfl | rfl | rfl | rfl | hc
        · decide
        · decide
        · decide
        · decide
        · exact hlb2 c hc
      · refine ⟨by simp, ?_⟩
        intro c hc
        simp only [List.mem_cons] at hc
        rcases hc with rfl | rfl | rfl | rfl | hc
        · decide
        · decide
        · decide
        · decide
        · exact hlb3 c hc
      · exact absurd hl (by simp)
    · rw [hJ]
      intro h
      rcases List.mem_append.mp h with h | h
      · rcases List.mem_append.mp h with h | h
        · rcases List.mem_append.mp h with h | h
          · simp only [List.mem_cons] at h
            rcases h with h | h | h | h | h
            · exact absurd h (by decide)
            · exact absurd h (by decide)
            · exact absurd h (by decide)
            · exact absurd h (by decide)
            · exact hlt1 h
          · exact absurd h (by decide)
        · rcases List.mem_append.mp h with h | h
          · simp only [List.mem_cons] at h
            rcases h with h | h | h | h | h
            · exact absurd h (by decide)
            · exact absurd h (by decide)
            · exact absurd h (by decide)
            · exact absurd h (by decide)
            · exact hlt2 h
          · exact absurd h (by decide)
      · simp only [List.mem_cons] at h
        rcases h with h | h | h | h | h
        · exact absurd h (by decide)
        · exact absurd h (by decide)
        · exact absurd h (by decide)
        · exact absurd h (by decide)
        · exact hlt3 h
    · show trimLeft (('Q' :: '1' :: ':' :: ' ' :: q1) ++
        '\n' :: (('Q' :: '2' :: ':' :: ' ' :: q2) ++
          '\n' :: ('Q' :: '3' :: ':' :: ' ' :: q3))) = _
      exact trimLeft_cons_nonspace _ _ (by decide)
    · rw [hJ]
      exact trimRight_append_fixed _ _ htr3 (by simp)
    · intro l hl
      simp only [List.mem_cons, List.mem_singleton] at hl
      rcases hl with rfl | rfl | rfl | hl
      · exact hstrip1
      · exact hstrip2
      · exact hstrip3
      · exact absurd hl (by simp)
    · exact List.Forall₂.cons hnp1 (List.Forall₂.cons hnp2
        (List.Forall₂.cons hnp3 List.Forall₂.nil))
    · exact hnd
    · simp
  · -- more than three questions contradicts the bound
    simp only [List.length_cons] at hlen
    omega

/-- If a string has no protocol block, neither does any middle section of
it: a block found in the middle section would embed to a block in the
whole string. -/
theorem searchBlock_infix_none (u m v : Str)
    (h : searchBlock (u ++ m ++ v) = none) : searchBlock m = none := by
  cases hop : findSub followUpOpenTag m with
  | none => simp [searchBlock, hop]
  | some p' =>
    cases hcl : findSub followUpCloseTag
        (m.drop (p' + followUpOpenTag.length)) with
    | none => simp [searchBlock, hop, hcl]
    | some d =>
      exfalso
      have hoccO : occursAt followUpOpenTag m p' :=
        (findSub_eq_some_first _ _ _ hop).1
      have hoccC : occursAt followUpCloseTag m
          (p' + followUpOpenTag.length + d) :=
        (occursAt_drop _ _ _ _).mp (findSub_eq_some_first _ _ _ hcl).1
      have hO : occursAt followUpOpenTag (u ++ m ++ v) (u.length + p') :=
        occursAt_embed _ _ _ _ _ hoccO
      have hC : occursAt followUpCloseTag (u ++ m ++ v)
          (u.length + (p' + followUpOpenTag.length + d)) :=
        occursAt_embed _ _ _ _ _ hoccC
      cases hopS : findSub followUpOpenTag (u ++ m ++ v) with
      | none => exact (findSub_eq_none_iff _ _).mp hopS _ hO
      | some p0 =>
        obtain ⟨hp0occ, hp0min⟩ := findSub_eq_some_first _ _ _ hopS
        have hle : p0 ≤ u.length + p' := by
          by_contra hlt
          exact hp0min _ (by omega) hO
        simp only [searchBlock, hopS] at h
        cases hclS : findSub followUpCloseTag
            ((u ++ m ++ v).drop (p0 + followUpOpenTag.length)) with
        | none =>
          apply (findSub_eq_none_iff _ _).mp hclS
            (u.length + (p' + followUpOpenTag.length + d) -
              (p0 + followUpOpenTag.length))
          rw [occursAt_drop]
          have harith : p0 + followUpOpenTag.length +
              (u.length + (p' + followUpOpenTag.length + d) -
                (p0 + followUpOpenTag.length)) =
              u.length + (p' + followUpOpenTag.length + d) := by
            omega
          rw [harith]
          exact hC
        | some d0 =>
          rw [hclS] at h
          exact Option.noConfusion h

/-- C9 amended: decoding a text with no protocol block returns the
whitespace-stripped text (not the text verbatim: edge whitespace is
removed) with an empty question list when defaults are disabled, and
decoding is idempotent on such texts: decoding the returned body again
gives the same body and an empty list.  (The counterexample shows the
verbatim reading of the claim fails on a text with a leading space.) -/
theorem decode_no_block (s : Str) (mode : LangMode)
    (h : searchBlock s = none) :
    splitFollowUp s mode false = (pyStrip s, []) ∧
      splitFollowUp (pyStrip s) mode false = (pyStrip s, []) := by
  constructor
  · simp only [splitFollowUp, h]
    rfl
  · obtain ⟨u, v, hs⟩ := exists_strip_decomp s
    have h' : searchBlock (u ++ pyStrip s ++ v) = none := by
      rw [← hs]
      exact h
    have h2 := searchBlock_infix_none u (pyStrip s) v h'
    simp only [splitFollowUp, h2]
    rw [pyStrip_idem]
    rfl

/-- Witness for C9 at a concrete block-free text. -/
theorem decode_no_block_witness :
    splitFollowUp (strL "hi") .ja false = (strL "hi", []) ∧
      splitFollowUp (pyStrip (strL "hi")) .ja false = (strL "hi", []) :=
  decode_no_block (strL "hi") .ja (by decide)

/-- C9 counterexample to the verbatim reading: a block-free text with a
leading space is not returned unchanged — the decoder strips it. -/
theorem decode_strips_edges :
    splitFollowUp (strL " x") .ja false ≠ (strL " x", ([] : List Str)) := by
  decide

/-- Witness for C4 at a concrete body and a concrete question list. -/
theorem follow_up_round_trip_witness :
    splitFollowUp (appendFollowUpBlock (strL "Alibi?") [strL "Why"] .ja) .ja
        false = (strL "Alibi?", [strL "Why"]) :=
  follow_up_round_trip (strL "Alibi?") [strL "Why"] .ja (by decide) (by decide)
    (by decide) (by decide) (by decide)
    (by
      intro q hqm
      simp only [List.mem_singleton] at hqm
      subst hqm
      exact ⟨by decide, by decide, by decide, by decide, by decide, by decide⟩)

/-- C4 counterexample to the unrestricted claim: a body with leading
whitespace is not restored exactly, because the encoder strips the body
before embedding it, so decoding yields the stripped body. -/
theorem follow_up_round_trip_unstripped_body :
    splitFollowUp (appendFollowUpBlock (strL " x") [] .ja) .ja false ≠
      (strL " x", ([] : List Str)) := by
  intro heq
  have h1 : (splitFollowUp (appendFollowUpBlock (strL " x") [] .ja) .ja
      false).1 = strL " x" := by rw [heq]
  have h : appendFollowUpBlock (strL " x") [] .ja =
      appendFollowUpBlock (strL "x") [] .ja := rfl
  rw [h, append_shape0 (strL "x") .ja (by decide) (by decide),
    splitFollowUp_assembled _ _ _ _ (by decide) (by decide)] at h1
  exact absurd h1 (by decide)

end MysteryGame
